import Mathlib

/-!
# Verification of the `radio` parser (`src/parser/mod.rs`)

A shallow embedding of the recursive-descent parser in `src/parser/mod.rs`.
Each Rust method becomes a Lean function over an explicit parser state
(the token stream plus the diagnostic sink held by the `Parser` struct).
Recursion is made total with an explicit fuel parameter: every function
takes a fuel argument, fails with `PErr.fuel` at fuel zero, and passes the
predecessor fuel to every call it makes, so fuel bounds the call depth.
The Rust functions, whenever they terminate, agree with these definitions
at every sufficiently large fuel.
-/

set_option maxHeartbeats 2000000

namespace Radio

/-- Byte-offset span, from the tokenizer interface (`Span {start, end}`).
`end` is a Lean keyword, so the field is named `stop`; it is the Rust
`end` field. -/
structure Span where
  start : Nat
  stop : Nat
deriving Repr, DecidableEq

/-- Token kinds, from the external tokenizer interface (spec section 6:
keywords, punctuation, literals).  Constructor names that collide with
Lean keywords (`def`, `else`, `for`, ...) carry a `kw` prefix-word.
The `f64` payload of a float token is never inspected by the parser, so
it is carried opaquely as its source text. -/
inductive TokenKind where
  | kwDef
  | kwType
  | kwCase
  | kwElse
  | kwFor
  | kwVal
  | kwVar
  | kwSet
  | dollar
  | thinArrow
  | fatArrow
  | openBrace
  | closeBrace
  | openParen
  | closeParen
  | comma
  | semicolon
  | colonColon
  | backslash
  | bang
  | minus
  | plus
  | star
  | slash
  | percent
  | ampAmp
  | pipePipe
  | equal
  | notEqual
  | gt
  | gtEq
  | lt
  | ltEq
  | float (text : String)
  | integer (value : Int)
  | string (value : String)
  | name (n : String)
deriving Repr, DecidableEq

/-- A token: a kind and a span (tokenizer interface). -/
structure Token where
  span : Span
  kind : TokenKind
deriving Repr, DecidableEq

/-- A lexical error from the token source (`TokenizationError`), carrying
an optional span.  Its other payload is irrelevant to the parser. -/
structure TokenizationError where
  span : Option Span
deriving Repr, DecidableEq

/-- Binary-operator kinds (`BinOp` in `ast.rs`, reconstructed from the
operator tables in `logical`/`cmp`/`arith`/`term`). -/
inductive BinOp where
  | and | or
  | eq | neq | gt | geq | lt | leq
  | add | sub | mul | div | mod
deriving Repr, DecidableEq

/-- Unary-operator kinds (`UnOp`). -/
inductive UnOp where
  | not | neg
deriving Repr, DecidableEq

/-- Solve markers (`SolveMarker`): `val`/`var`/`set`. -/
inductive SolveMarker where
  | val | var | set
deriving Repr, DecidableEq

/-- Literal values (`Literal`): float, integer, string, variant tag. -/
inductive Literal where
  | float (text : String)
  | integer (value : Int)
  | str (value : String)
  | variant (n : String)
deriving Repr, DecidableEq

mutual

/-- An AST expression (`Expr {span, kind}` in `ast.rs`, whose shape is
fixed by its construction sites in `mod.rs` and by spec section 3). -/
inductive Expr where
  | mk (span : Span) (kind : ExprKind)
deriving Repr

/-- Expression kinds (`ExprKind`).  `case` and `for` are Lean keywords,
so those constructors are `caseOf` and `forLoop`. -/
inductive ExprKind where
  | tuple (items : List Expr)
  | scope (defs : List Def) (exprs : List Expr) (discard : Bool)
  | abstract (arg : Option Expr) (spec : Bool) (ty : Option Expr) (body : Expr)
  | caseOf (cond : Expr) (onTrue : Expr) (onFalse : Option Expr)
  | forLoop (init : Option Expr) (cond : Expr) (afterthought : Option Expr) (body : Expr)
  | assert (expr : Expr) (ty : Expr)
  | binary (op : BinOp) (lhs : Expr) (rhs : Expr)
  | unary (op : UnOp) (operand : Expr)
  | solve (marker : SolveMarker) (n : String)
  | apply (callee : Expr) (arg : Expr)
  | literal (lit : Literal)
  | name (n : String)
deriving Repr

/-- A declaration (`Def {span, name, value}`), produced by both `def` and
`type` declarations. -/
inductive Def where
  | mk (span : Span) (n : String) (value : Expr)
deriving Repr

end

/-- Span of an expression. -/
def Expr.span : Expr → Span
  | .mk s _ => s

/-- Kind of an expression. -/
def Expr.kind : Expr → ExprKind
  | .mk _ k => k

/-- Span of a declaration. -/
def Def.span : Def → Span
  | .mk s _ _ => s

/-- Parse-error kinds (`ParseErrorKind`): an unexpected token (or
unexpected end of input), or a wrapped lexical error. -/
inductive ParseErrorKind where
  | unexpected (tok : Option Token)
  | tokenizationError (e : TokenizationError)
deriving Repr, DecidableEq

/-- A parse error (`ParseError {kind, span}`). -/
structure ParseError where
  kind : ParseErrorKind
  span : Option Span
deriving Repr, DecidableEq

/-- Errors of the fuel-indexed embedding: a genuine `ParseError` of the
source, or fuel exhaustion (which the Rust code cannot produce; theorems
are stated at sufficient fuel). -/
inductive PErr where
  | parse (e : ParseError)
  | fuel
deriving Repr, DecidableEq

/-- `impl From<TokenizationError> for ParseError` (lines 25-32). -/
def ParseError.ofTokenization (e : TokenizationError) : ParseError :=
  { span := e.span, kind := .tokenizationError e }

/-- The pull-based token source (`Tokens`): the remaining well-formed
tokens, followed optionally by the lexical error at which the tokenizer
fails.  Pulling past the listed tokens yields the error if present, and
clean end of input otherwise. -/
structure TokStream where
  toks : List Token
  lexErr : Option TokenizationError
deriving Repr, DecidableEq

/-- The diagnostic sink (`ErrorStream`): an append-only list of
diagnostics.  The parser layer never touches it; its payload type is
irrelevant, a list of strings stands in. -/
structure ErrorStream where
  msgs : List String
deriving Repr, DecidableEq

/-- The parser state: the fields of `struct Parser {tokens, errors}`. -/
structure PState where
  tokens : TokStream
  errors : ErrorStream
deriving Repr, DecidableEq

/-- The shape of every parser method: state in, value and state out, or
an error (`Result<'s, T>` plus the `&mut self` threading). -/
def M (α : Type) : Type := PState → Except PErr (α × PState)

/-- Sequencing of two parser steps (the `?`-propagation of the source). -/
def pbind {α β : Type} (x : M α) (k : α → M β) : M β := fun s =>
  match x s with
  | .error e => .error e
  | .ok (a, s1) => k a s1

/-- Return a value without touching the state. -/
def pok {α : Type} (a : α) : M α := fun s => .ok (a, s)

/-- Abort with an error. -/
def pthrow {α : Type} (e : PErr) : M α := fun _ => .error e

/-- `self.tokens.peek()?`: the next token without consuming it, `none` at
clean end of input, and the wrapped lexical error where the tokenizer
fails. -/
def peekT : M (Option Token) := fun s =>
  match s.tokens.toks with
  | t :: _ => .ok (some t, s)
  | [] =>
    match s.tokens.lexErr with
    | some e => .error (.parse (ParseError.ofTokenization e))
    | none => .ok (none, s)

/-- `self.tokens.next()?`: consume the next token. -/
def nextT : M Token := fun s =>
  match s.tokens.toks with
  | t :: rest => .ok (t, { s with tokens := { s.tokens with toks := rest } })
  | [] =>
    match s.tokens.lexErr with
    | some e => .error (.parse (ParseError.ofTokenization e))
    | none => .error (.parse { kind := .unexpected none, span := none })

/-! ## Lookahead/match engine (`peek`, `has_peek`, `require`,
`maybe_require`, `eat`, lines 615-691) -/

/-- `Parser::peek(pred)` (lines 615-625). -/
def peekP {α : Type} (pred : Token → Option α) : M (Option α) :=
  pbind peekT fun tk =>
    match tk with
    | some t =>
      match pred t with
      | some v => pok (some v)
      | none => pok none
    | none => pok none

/-- `Parser::has_peek(pred)` (lines 628-638). -/
def hasPeek (pred : Token → Option Unit) : M Bool :=
  pbind peekT fun tk =>
    match tk with
    | some t =>
      match pred t with
      | some _ => pok true
      | none => pok false
    | none => pok false

/-- `Parser::maybe_require(pred)` (lines 657-674): consume and return a
match, error with the offending token on a mismatch, and return nothing
at clean end of input. -/
def maybeRequire {α : Type} (pred : Token → Option α) : M (Option α) :=
  pbind peekT fun tk =>
    match tk with
    | some t =>
      match pred t with
      | some v => pbind nextT fun _ => pok (some v)
      | none => pthrow (.parse { span := some t.span, kind := .unexpected (some t) })
    | none => pok none

/-- `Parser::require(pred)` (lines 643-652): like `maybe_require`, but
end of input is an error `Unexpected(None)` with no span. -/
def require {α : Type} (pred : Token → Option α) : M α :=
  fun s =>
    match maybeRequire pred s with
    | .ok (some v, s1) => .ok (v, s1)
    | .ok (none, _) => .error (.parse { kind := .unexpected none, span := none })
    | .error e => .error e

/-- `Parser::eat(pred)` (lines 679-690): consume and return a match,
otherwise leave the token unconsumed and return nothing. -/
def eat {α : Type} (pred : Token → Option α) : M (Option α) :=
  pbind peekT fun tk =>
    match tk with
    | some t =>
      match pred t with
      | some v => pbind nextT fun _ => pok (some v)
      | none => pok none
    | none => pok none

/-! ## Token predicates

The source builds one-token classifiers with the `bpred!`/`tpred!`/
`vpred!` macros of the missing `preds` module; each use expands to a
closure matching on the token kind, which is embedded here as a named
function per call site.  `mergepreds` is modelled from the spec: the
statement terminator is combined with the scope's termination predicate
so that either one ends a tuple (spec section 4.2, case 5). -/

/-- `bpred!()`: the empty predicate, matching no token (used as the
top-level termination predicate). -/
def noTok : Token → Option Unit := fun _ => none

/-- `bpred!(TokenKind::Def)`. -/
def isDefTok : Token → Option Unit := fun t =>
  match t.kind with | .kwDef => some () | _ => none

/-- `bpred!(TokenKind::Type)`. -/
def isTypeTok : Token → Option Unit := fun t =>
  match t.kind with | .kwType => some () | _ => none

/-- `bpred!(TokenKind::Case)`. -/
def isCaseTok : Token → Option Unit := fun t =>
  match t.kind with | .kwCase => some () | _ => none

/-- `bpred!(TokenKind::For)`. -/
def isForTok : Token → Option Unit := fun t =>
  match t.kind with | .kwFor => some () | _ => none

/-- `bpred!(TokenKind::Semicolon)`. -/
def isSemiTok : Token → Option Unit := fun t =>
  match t.kind with | .semicolon => some () | _ => none

/-- `bpred!(TokenKind::ThinArrow)`. -/
def isThinArrowTok : Token → Option Unit := fun t =>
  match t.kind with | .thinArrow => some () | _ => none

/-- `bpred!(TokenKind::FatArrow)`. -/
def isFatArrowTok : Token → Option Unit := fun t =>
  match t.kind with | .fatArrow => some () | _ => none

/-- `bpred!(TokenKind::Dollar)`. -/
def isDollarTok : Token → Option Unit := fun t =>
  match t.kind with | .dollar => some () | _ => none

/-- `bpred!(TokenKind::OpenBrace)`. -/
def isOpenBraceTok : Token → Option Unit := fun t =>
  match t.kind with | .openBrace => some () | _ => none

/-- `bpred!(TokenKind::CloseBrace)`. -/
def isCloseBraceTok : Token → Option Unit := fun t =>
  match t.kind with | .closeBrace => some () | _ => none

/-- `bpred!(TokenKind::CloseParen)`. -/
def isCloseParenTok : Token → Option Unit := fun t =>
  match t.kind with | .closeParen => some () | _ => none

/-- `bpred!(TokenKind::Backslash)`. -/
def isBackslashTok : Token → Option Unit := fun t =>
  match t.kind with | .backslash => some () | _ => none

/-- `bpred!(Dollar | ThinArrow | FatArrow | OpenBrace)`: the tokens that
open an abstraction tail (lines 159-161, 185-190, 376-378). -/
def isAbsStartTok : Token → Option Unit := fun t =>
  match t.kind with
  | .dollar => some ()
  | .thinArrow => some ()
  | .fatArrow => some ()
  | .openBrace => some ()
  | _ => none

/-- `bpred!(FatArrow | OpenBrace)`: the tokens that directly open a body
after `else` (line 264). -/
def isBodyStartTok : Token → Option Unit := fun t =>
  match t.kind with
  | .fatArrow => some ()
  | .openBrace => some ()
  | _ => none

/-- `tpred!(K)`: match the kind and return the whole token. -/
def tokIf (k : TokenKind → Bool) : Token → Option Token := fun t =>
  if k t.kind then some t else none

/-- Kind test for `tpred!(TokenKind::Semicolon)`. -/
def kSemicolon : TokenKind → Bool := fun k =>
  match k with | .semicolon => true | _ => false

/-- Kind test for `tpred!(TokenKind::Def)`. -/
def kDef : TokenKind → Bool := fun k =>
  match k with | .kwDef => true | _ => false

/-- Kind test for `tpred!(TokenKind::Type)`. -/
def kType : TokenKind → Bool := fun k =>
  match k with | .kwType => true | _ => false

/-- Kind test for `tpred!(TokenKind::Case)`. -/
def kCase : TokenKind → Bool := fun k =>
  match k with | .kwCase => true | _ => false

/-- Kind test for `tpred!(TokenKind::Else)`. -/
def kElse : TokenKind → Bool := fun k =>
  match k with | .kwElse => true | _ => false

/-- Kind test for `tpred!(TokenKind::For)`. -/
def kFor : TokenKind → Bool := fun k =>
  match k with | .kwFor => true | _ => false

/-- Kind test for `tpred!(TokenKind::OpenBrace)`. -/
def kOpenBrace : TokenKind → Bool := fun k =>
  match k with | .openBrace => true | _ => false

/-- Kind test for `tpred!(TokenKind::CloseBrace)`. -/
def kCloseBrace : TokenKind → Bool := fun k =>
  match k with | .closeBrace => true | _ => false

/-- Kind test for `tpred!(TokenKind::OpenParen)`. -/
def kOpenParen : TokenKind → Bool := fun k =>
  match k with | .openParen => true | _ => false

/-- Kind test for `tpred!(TokenKind::CloseParen)`. -/
def kCloseParen : TokenKind → Bool := fun k =>
  match k with | .closeParen => true | _ => false

/-- Kind test for `tpred!(TokenKind::Comma)`. -/
def kComma : TokenKind → Bool := fun k =>
  match k with | .comma => true | _ => false

/-- Kind test for `tpred!(TokenKind::ColonColon)`. -/
def kColonColon : TokenKind → Bool := fun k =>
  match k with | .colonColon => true | _ => false

/-- `vpred!(TokenKind::Name(n) => n)` (lines 130, 145). -/
def nameVal : Token → Option String := fun t =>
  match t.kind with | .name n => some n | _ => none

/-- `vpred!(:t: TokenKind::Name(n) => (t.span, n))` (lines 508, 570). -/
def nameSpanVal : Token → Option (Span × String) := fun t =>
  match t.kind with | .name n => some (t.span, n) | _ => none

/-- `vpred!(:t: TokenKind::Backslash => t.span)` (line 569). -/
def backslashSpan : Token → Option Span := fun t =>
  match t.kind with | .backslash => some t.span | _ => none

/-- The logical-level operator table (lines 426-429). -/
def logicalOp : Token → Option BinOp := fun t =>
  match t.kind with
  | .ampAmp => some .and
  | .pipePipe => some .or
  | _ => none

/-- The comparison-level operator table (lines 436-443). -/
def cmpOp : Token → Option BinOp := fun t =>
  match t.kind with
  | .equal => some .eq
  | .notEqual => some .neq
  | .gt => some .gt
  | .gtEq => some .geq
  | .lt => some .lt
  | .ltEq => some .leq
  | _ => none

/-- The additive-level operator table (lines 469-472). -/
def arithOp : Token → Option BinOp := fun t =>
  match t.kind with
  | .plus => some .add
  | .minus => some .sub
  | _ => none

/-- The multiplicative-level operator table (lines 479-483). -/
def termOp : Token → Option BinOp := fun t =>
  match t.kind with
  | .star => some .mul
  | .slash => some .div
  | .percent => some .mod
  | _ => none

/-- The unary prefix-operator table (lines 488-491). -/
def unaryOp : Token → Option (Span × UnOp) := fun t =>
  match t.kind with
  | .bang => some (t.span, .not)
  | .minus => some (t.span, .neg)
  | _ => none

/-- The solve-marker table (lines 503-507). -/
def solveMarkerVal : Token → Option (Span × SolveMarker) := fun t =>
  match t.kind with
  | .kwVal => some (t.span, .val)
  | .kwVar => some (t.span, .var)
  | .kwSet => some (t.span, .set)
  | _ => none

/-- The atom literal/name table (lines 579-584). -/
def atomLit : Token → Option (Span × ExprKind) := fun t =>
  match t.kind with
  | .float f => some (t.span, .literal (.float f))
  | .integer i => some (t.span, .literal (.integer i))
  | .string v => some (t.span, .literal (.str v))
  | .name n => some (t.span, .name n)
  | _ => none

/-- Modelled from the spec: `mergepreds` of the missing `preds` module
combines the statement terminator with the scope termination predicate so
that either one bounds a tuple-expression (spec section 4.2, case 5). -/
def mergepreds (p q : Token → Option Unit) : Token → Option Unit := fun t =>
  match p t with
  | some v => some v
  | none => q t

/-! ## The parser

One function per Rust method.  The `bin_op` combinator takes its `next`
level as an `impl Fn` argument in the source; here that argument is
defunctionalized into the four-element `BinLevel` index (the four call
sites `logical`/`cmp`/`arith`/`term`), so that the mutual recursion is
structural in the fuel. -/

/-- The four instantiations of the `bin_op` combinator: the levels
`logical` (line 423), `cmp` (line 433), `arith` (line 466) and `term`
(line 476). -/
inductive BinLevel where
  | logical | cmp | arith | term
deriving Repr, DecidableEq

/-- The operator table each level passes to `bin_op`. -/
def binLevelOp : BinLevel → Token → Option BinOp
  | .logical => logicalOp
  | .cmp => cmpOp
  | .arith => arithOp
  | .term => termOp

/-- Accumulator of the `scope` loop (lines 54-59): the mutable locals
`start`, `end`, `defs`, `exprs`, `first`, `discard`. -/
structure ScopeAcc where
  start : Nat
  stop : Nat
  defs : List Def
  exprs : List Expr
  first : Bool
  discard : Bool
deriving Repr

/-- One parsed statement of the `scope` loop: its span, whether the scope
continues after it (`discard`), and the updated `defs`/`exprs`. -/
structure StmtStep where
  span : Span
  discard : Bool
  defs : List Def
  exprs : List Expr
deriving Repr

/-- The result shape of a scope (lines 107-125): collapse to the bare
tail expression, the empty tuple, or an explicit `Scope`. -/
def scopeResult (acc : ScopeAcc) : Expr :=
  match acc.defs, acc.exprs, acc.discard with
  | [], [e], false => e
  | [], [], _ => ⟨⟨acc.start, acc.stop⟩, .tuple []⟩
  | ds, es, d => ⟨⟨acc.start, acc.stop⟩, .scope ds es d⟩

mutual

/-- `Parser::parse` (lines 49-51): a scope with the empty termination
predicate. -/
def parserParse (fuel : Nat) : M Expr :=
  match fuel with
  | 0 => pthrow .fuel
  | f + 1 => scope f noTok

/-- `Parser::scope` (lines 53-126): run the statement loop, then shape
the result. -/
def scope (fuel : Nat) (endPred : Token → Option Unit) : M Expr :=
  match fuel with
  | 0 => pthrow .fuel
  | f + 1 =>
    pbind (scopeLoop f endPred ⟨0, 0, [], [], true, false⟩) fun acc =>
      pok (scopeResult acc)

/-- The `while` loop of `scope` (lines 60-105): run while a token remains
and the termination predicate does not match; after each statement stop
unless it continued (`discard`). -/
def scopeLoop (fuel : Nat) (endPred : Token → Option Unit) (acc : ScopeAcc) : M ScopeAcc :=
  match fuel with
  | 0 => pthrow .fuel
  | f + 1 =>
    pbind peekT fun pk =>
      match pk with
      | none => pok acc
      | some _ =>
        pbind (hasPeek endPred) fun stop =>
          if stop then pok acc
          else
            pbind (scopeDispatch f endPred acc.defs acc.exprs) fun r =>
              let acc2 : ScopeAcc :=
                { start := if acc.first then r.span.start else acc.start
                  stop := r.span.stop
                  defs := r.defs
                  exprs := r.exprs
                  first := false
                  discard := r.discard }
              if r.discard then scopeLoop f endPred acc2 else pok acc2

/-- The per-iteration dispatch of `scope` on the leading token
(lines 61-95): declaration, conditional, loop, or a terminator-bounded
tuple expression. -/
def scopeDispatch (fuel : Nat) (endPred : Token → Option Unit)
    (defs : List Def) (exprs : List Expr) : M StmtStep :=
  match fuel with
  | 0 => pthrow .fuel
  | f + 1 =>
    pbind (hasPeek isDefTok) fun d1 =>
      if d1 then
        pbind (defDecl f) fun d => pok ⟨d.span, true, defs ++ [d], exprs⟩
      else
        pbind (hasPeek isTypeTok) fun d2 =>
          if d2 then
            pbind (typedef f) fun d => pok ⟨d.span, true, defs ++ [d], exprs⟩
          else
            pbind (hasPeek isCaseTok) fun d3 =>
              if d3 then
                pbind (termcase f) fun c => pok ⟨c.span, true, defs, exprs ++ [c]⟩
              else
                pbind (hasPeek isForTok) fun d4 =>
                  if d4 then
                    pbind (termfor f) fun c => pok ⟨c.span, true, defs, exprs ++ [c]⟩
                  else
                    pbind (tuple f (mergepreds isSemiTok endPred)) fun e =>
                      pbind (eat (tokIf kSemicolon)) fun semi =>
                        pok ⟨⟨e.span.start,
                              match semi with
                              | some st => st.span.stop
                              | none => e.span.stop⟩,
                             semi.isSome, defs, exprs ++ [e]⟩

/-- `Parser::def` (lines 128-141); `def` is reserved in Lean. -/
def defDecl (fuel : Nat) : M Def :=
  match fuel with
  | 0 => pthrow .fuel
  | f + 1 =>
    pbind (require (tokIf kDef)) fun kw =>
      pbind (require nameVal) fun n =>
        pbind (termexpr f) fun abs =>
          pok (Def.mk ⟨kw.span.start, abs.span.stop⟩ n abs)

/-- `Parser::typedef` (lines 143-156). -/
def typedef (fuel : Nat) : M Def :=
  match fuel with
  | 0 => pthrow .fuel
  | f + 1 =>
    pbind (require (tokIf kType)) fun kw =>
      pbind (require nameVal) fun n =>
        pbind (termexpr f) fun v =>
          pok (Def.mk ⟨kw.span.start, v.span.stop⟩ n v)

/-- `Parser::termexpr` (lines 158-216): a statement-level expression,
abstraction, or terminator-required bare expression. -/
def termexpr (fuel : Nat) : M Expr :=
  match fuel with
  | 0 => pthrow .fuel
  | f + 1 =>
    pbind (hasPeek isAbsStartTok) fun ab0 =>
      if ab0 then
        pbind (eat isThinArrowTok) fun ta =>
          pbind
            (match ta with
             | some _ => pbind (binOp f .logical) fun ty => pok (some ty)
             | none => pok none) fun ty =>
            pbind (eat isDollarTok) fun dl =>
              pbind (termbody f) fun bd =>
                pok ⟨⟨bd.span.start, bd.span.stop⟩, .abstract none dl.isSome ty bd⟩
      else
        pbind (binOp f .logical) fun lg =>
          pbind (hasPeek isAbsStartTok) fun ab =>
            if ab then
              pbind (eat isThinArrowTok) fun ta =>
                pbind
                  (match ta with
                   | some _ => pbind (binOp f .logical) fun ty => pok (some ty)
                   | none => pok none) fun ty =>
                  pbind (eat isDollarTok) fun dl =>
                    pbind (termbody f) fun bd =>
                      pok ⟨⟨lg.span.start, bd.span.stop⟩, .abstract (some lg) dl.isSome ty bd⟩
            else
              pbind (require isSemiTok) fun _ => pok lg

/-- `Parser::termbody` (lines 218-235): `=>` followed by a statement
expression, or a braced scope. -/
def termbody (fuel : Nat) : M Expr :=
  match fuel with
  | 0 => pthrow .fuel
  | f + 1 =>
    pbind (eat isFatArrowTok) fun fa =>
      match fa with
      | some _ => termexpr f
      | none =>
        pbind (require (tokIf kOpenBrace)) fun opn =>
          pbind (scope f isCloseBraceTok) fun sc =>
            pbind (require (tokIf kCloseBrace)) fun cls =>
              pok ⟨⟨opn.span.start, cls.span.stop⟩, sc.kind⟩

/-- `Parser::termcase` (lines 237-257). -/
def termcase (fuel : Nat) : M Expr :=
  match fuel with
  | 0 => pthrow .fuel
  | f + 1 =>
    pbind (require (tokIf kCase)) fun ct =>
      pbind (binOp f .logical) fun cond =>
        pbind (termbody f) fun onT =>
          pbind (termelse f) fun onF =>
            pok ⟨⟨ct.span.start,
                  match onF with
                  | some fe => fe.span.stop
                  | none => onT.span.stop⟩,
                 .caseOf cond onT onF⟩

/-- `Parser::termelse` (lines 259-286): no `else` yields nothing; a body
opener yields an unconditional else; otherwise recurse as an else-if. -/
def termelse (fuel : Nat) : M (Option Expr) :=
  match fuel with
  | 0 => pthrow .fuel
  | f + 1 =>
    pbind (eat (tokIf kElse)) fun et =>
      match et with
      | none => pok none
      | some elseTok =>
        pbind (hasPeek isBodyStartTok) fun b =>
          if b then
            pbind (termbody f) fun bd => pok (some bd)
          else
            pbind (binOp f .logical) fun cond =>
              pbind (termbody f) fun onT =>
                pbind (termelse f) fun onF =>
                  pok (some ⟨⟨elseTok.span.start,
                              match onF with
                              | some fe => fe.span.stop
                              | none => onT.span.stop⟩,
                             .caseOf cond onT onF⟩)

/-- `Parser::termfor` (lines 288-333): `for` with one, two or three
semicolon-separated clauses and a body. -/
def termfor (fuel : Nat) : M Expr :=
  match fuel with
  | 0 => pthrow .fuel
  | f + 1 =>
    pbind (require (tokIf kFor)) fun ft =>
      pbind (binOp f .logical) fun first =>
        pbind (eat isSemiTok) fun s1 =>
          pbind
            (match s1 with
             | some _ =>
               pbind (binOp f .logical) fun second =>
                 pbind (eat isSemiTok) fun s2 =>
                   match s2 with
                   | some _ =>
                     pbind (binOp f .logical) fun third => pok (some second, some third)
                   | none => pok (some second, none)
             | none => pok (none, none)) fun sects =>
            pbind (termbody f) fun bd =>
              pok ⟨⟨ft.span.start, bd.span.stop⟩,
                   match sects with
                   | (some second, some third) => .forLoop (some first) second (some third) bd
                   | (some second, none) => .forLoop (some first) second none bd
                   | (none, _) => .forLoop none first none bd⟩

/-- `Parser::tuple` (lines 335-371): an empty tuple at an immediate
bound, a collapsed single expression, or a comma list. -/
def tuple (fuel : Nat) (endPred : Token → Option Unit) : M Expr :=
  match fuel with
  | 0 => pthrow .fuel
  | f + 1 =>
    pbind (hasPeek endPred) fun e1 =>
      pbind peekT fun pk =>
        if e1 || pk.isNone then
          pok ⟨⟨0, 0⟩, .tuple []⟩
        else
          pbind (expr f) fun first =>
            pbind (hasPeek endPred) fun e2 =>
              if e2 then pok first
              else tupleLoop f endPred first.span.start first.span.stop [first]

/-- The comma loop of `tuple` (lines 352-363). -/
def tupleLoop (fuel : Nat) (endPred : Token → Option Unit)
    (start stop : Nat) (items : List Expr) : M Expr :=
  match fuel with
  | 0 => pthrow .fuel
  | f + 1 =>
    pbind (eat (tokIf kComma)) fun c =>
      match c with
      | none => pok ⟨⟨start, stop⟩, .tuple items⟩
      | some ct =>
        pbind (hasPeek endPred) fun e3 =>
          if e3 then pok ⟨⟨start, ct.span.stop⟩, .tuple items⟩
          else
            pbind (expr f) fun x =>
              tupleLoop f endPred start ct.span.stop (items ++ [x])

/-- `Parser::expr` (lines 373-402): a logical expression, optionally
continued as an expression-level abstraction. -/
def expr (fuel : Nat) : M Expr :=
  match fuel with
  | 0 => pthrow .fuel
  | f + 1 =>
    pbind (binOp f .logical) fun lg =>
      pbind (hasPeek isAbsStartTok) fun ab =>
        if ab then
          pbind (eat isThinArrowTok) fun ta =>
            pbind
              (match ta with
               | some _ => pbind (binOp f .logical) fun ty => pok (some ty)
               | none => pok none) fun ty =>
              pbind (eat isDollarTok) fun dl =>
                pbind (body f) fun bd =>
                  pok ⟨⟨lg.span.start, bd.span.stop⟩, .abstract (some lg) dl.isSome ty bd⟩
        else pok lg

/-- `Parser::body` (lines 404-421): `=>` followed by a plain logical
expression, or a braced scope. -/
def body (fuel : Nat) : M Expr :=
  match fuel with
  | 0 => pthrow .fuel
  | f + 1 =>
    pbind (eat isFatArrowTok) fun fa =>
      match fa with
      | some _ => binOp f .logical
      | none =>
        pbind (require (tokIf kOpenBrace)) fun opn =>
          pbind (scope f isCloseBraceTok) fun sc =>
            pbind (require (tokIf kCloseBrace)) fun cls =>
              pok ⟨⟨opn.span.start, cls.span.stop⟩, sc.kind⟩

/-- `Parser::assert` (lines 447-464): an arithmetic expression with an
optional `:: type` suffix.  Note the resulting span ends at the `::`
token (line 454). -/
def assert (fuel : Nat) : M Expr :=
  match fuel with
  | 0 => pthrow .fuel
  | f + 1 =>
    pbind (binOp f .arith) fun e =>
      pbind (eat (tokIf kColonColon)) fun c =>
        match c with
        | some tok =>
          pbind (binOp f .arith) fun ty =>
            pok ⟨⟨e.span.start, tok.span.stop⟩, .assert e ty⟩
        | none => pok e

/-- `Parser::prefix` (lines 487-530); `prefix` is reserved in Lean.
A stacked unary operator, a solve marker followed by a name, or a
suffix/application expression. -/
def unaryLevel (fuel : Nat) : M Expr :=
  match fuel with
  | 0 => pthrow .fuel
  | f + 1 =>
    pbind (eat unaryOp) fun u =>
      match u with
      | some (opSpan, op) =>
        pbind (unaryLevel f) fun a =>
          pok ⟨⟨opSpan.start, a.span.stop⟩, .unary op a⟩
      | none =>
        pbind (eat solveMarkerVal) fun mk =>
          match mk with
          | some (mSpan, marker) =>
            pbind (require nameSpanVal) fun p =>
              pok ⟨⟨mSpan.start, p.fst.stop⟩, .solve marker p.snd⟩
          | none => suffix f

/-- `Parser::suffix` (lines 532-555): one atom (else `Unexpected` with
the peeked token), then greedy left-folded application. -/
def suffix (fuel : Nat) : M Expr :=
  match fuel with
  | 0 => pthrow .fuel
  | f + 1 =>
    pbind (maybeAtom f) fun ma =>
      match ma with
      | none =>
        pbind peekT fun pk =>
          pthrow (.parse { kind := .unexpected pk, span := none })
      | some a => suffixLoop f a

/-- The application loop of `suffix` (lines 540-552). -/
def suffixLoop (fuel : Nat) (a : Expr) : M Expr :=
  match fuel with
  | 0 => pthrow .fuel
  | f + 1 =>
    pbind (maybeAtom f) fun ma =>
      match ma with
      | some arg => suffixLoop f ⟨⟨a.span.start, arg.span.stop⟩, .apply a arg⟩
      | none => pok a

/-- `Parser::maybe_atom` (lines 557-589): a parenthesized scope, a
variant literal, a literal or name token, or nothing. -/
def maybeAtom (fuel : Nat) : M (Option Expr) :=
  match fuel with
  | 0 => pthrow .fuel
  | f + 1 =>
    pbind (eat (tokIf kOpenParen)) fun op =>
      match op with
      | some opn =>
        pbind (scope f isCloseParenTok) fun sc =>
          pbind (require (tokIf kCloseParen)) fun cls =>
            pok (some ⟨⟨opn.span.start, cls.span.stop⟩, sc.kind⟩)
      | none =>
        pbind (hasPeek isBackslashTok) fun bs =>
          if bs then
            pbind (require backslashSpan) fun st =>
              pbind (require nameSpanVal) fun p =>
                pok (some ⟨⟨st.start, p.fst.stop⟩, .literal (.variant p.snd)⟩)
          else
            pbind (eat atomLit) fun l =>
              match l with
              | some (sp, k) => pok (some ⟨sp, k⟩)
              | none => pok none

/-- `Parser::bin_op` (lines 591-613): one operand at the next level,
then the left fold. -/
def binOp (fuel : Nat) (lvl : BinLevel) : M Expr :=
  match fuel with
  | 0 => pthrow .fuel
  | f + 1 =>
    pbind (binLevelNext f lvl) fun a => binOpLoop f lvl a

/-- The `while` fold of `bin_op` (lines 598-610).  The folded node's span
is computed from the left operand only (lines 601-604). -/
def binOpLoop (fuel : Nat) (lvl : BinLevel) (a : Expr) : M Expr :=
  match fuel with
  | 0 => pthrow .fuel
  | f + 1 =>
    pbind (eat (binLevelOp lvl)) fun o =>
      match o with
      | none => pok a
      | some op =>
        pbind (binLevelNext f lvl) fun b =>
          binOpLoop f lvl ⟨⟨a.span.start, a.span.stop⟩, .binary op a b⟩

/-- The `next` argument each level passes to `bin_op`: `logical` parses
operands at `cmp`, `cmp` at `assert`, `arith` at `term`, and `term` at
`prefix`. -/
def binLevelNext (fuel : Nat) (lvl : BinLevel) : M Expr :=
  match fuel with
  | 0 => pthrow .fuel
  | f + 1 =>
    match lvl with
    | .logical => binOp f .cmp
    | .cmp => assert f
    | .arith => binOp f .term
    | .term => unaryLevel f

end

/-- `Parser::logical` (lines 423-431). -/
def logical (fuel : Nat) : M Expr := binOp fuel .logical

/-- `Parser::cmp` (lines 433-445). -/
def cmp (fuel : Nat) : M Expr := binOp fuel .cmp

/-- `Parser::arith` (lines 466-474). -/
def arith (fuel : Nat) : M Expr := binOp fuel .arith

/-- `Parser::term` (lines 476-485). -/
def term (fuel : Nat) : M Expr := binOp fuel .term

/-- The public entry point `parse` (lines 36-41): build the parser from
the token stream and the diagnostic sink and run `Parser::parse`,
returning the tree or the first error. -/
def parse (fuel : Nat) (tokens : TokStream) (errors : ErrorStream) : Except PErr Expr :=
  match parserParse fuel { tokens := tokens, errors := errors } with
  | .ok (e, _) => .ok e
  | .error e => .error e

/-! ## Helpers for stating the properties -/

/-- The value expression of a declaration. -/
def Def.value : Def → Expr
  | .mk _ _ v => v

/-- The direct child expressions of a node (one level, no recursion). -/
def Expr.children (e : Expr) : List Expr :=
  match e.kind with
  | .tuple items => items
  | .scope defs exprs _ => defs.map Def.value ++ exprs
  | .abstract arg _ ty b => arg.toList ++ ty.toList ++ [b]
  | .caseOf c t f => [c, t] ++ f.toList
  | .forLoop i c a b => i.toList ++ [c] ++ a.toList ++ [b]
  | .assert e1 t => [e1, t]
  | .binary _ l r => [l, r]
  | .unary _ a => [a]
  | .solve _ _ => []
  | .apply c a => [c, a]
  | .literal _ => []
  | .name _ => []

/-- The span-coverage property at one node: its span is ordered and
bounds the span of each direct child. -/
def coversDirect (e : Expr) : Bool :=
  decide (e.span.start ≤ e.span.stop) &&
    e.children.all fun c =>
      decide (e.span.start ≤ c.span.start) && decide (c.span.stop ≤ e.span.stop)

/-- Every binary node along the left spine of an expression has the span
of its own left operand (the nodes a `bin_op` fold constructs are exactly
the left spine above the initial operand). -/
def leftSpineBinOk : Expr → Bool
  | .mk sp (.binary _ l _) => decide (sp = l.span) && leftSpineBinOk l
  | _ => true

/-- An empty diagnostic sink, for concrete runs. -/
def esNil : ErrorStream := ⟨[]⟩

/-- A concrete token. -/
def tok (a b : Nat) (k : TokenKind) : Token := ⟨⟨a, b⟩, k⟩

/-- A clean token stream (no lexical failure). -/
def cleanTS (l : List Token) : TokStream := ⟨l, none⟩

/-- Whether a parser step succeeded (no error of any kind). -/
def isOkB {α : Type} : Except PErr α → Bool
  | .ok _ => true
  | .error _ => false

/-- Replace the diagnostic-sink component of a successful parser result
(used to state that the sink passes through every run untouched). -/
def remapES {α : Type} (es : ErrorStream) : Except PErr (α × PState) → Except PErr (α × PState)
  | .error e => .error e
  | .ok (a, st) => .ok (a, ⟨st.tokens, es⟩)

/-- A parser step leaves the diagnostic sink exactly as it found it, and
neither its result nor its token consumption depends on the sink. -/
def Frames {α : Type} (m : M α) : Prop :=
  ∀ ts es es2, m ⟨ts, es⟩ = remapES es (m ⟨ts, es2⟩)

/-- The offending `Assert` node produced from the input `a :: b`
(tokens `a`@0-1, `::`@2-4, `b`@5-6): its span stops at the `::` token
while its `ty` child extends to offset 6. -/
def c4AssertNode : Expr :=
  ⟨⟨0, 4⟩, .assert ⟨⟨0, 1⟩, .name "a"⟩ ⟨⟨5, 6⟩, .name "b"⟩⟩

/-- The frame property for every parser function at a given fuel: each
one threads the diagnostic sink through unchanged and its behaviour does
not depend on it. -/
structure AllFrames (f : Nat) : Prop where
  hParse : Frames (parserParse f)
  hScope : ∀ p, Frames (scope f p)
  hScopeLoop : ∀ p acc, Frames (scopeLoop f p acc)
  hScopeDispatch : ∀ p ds exs, Frames (scopeDispatch f p ds exs)
  hDefDecl : Frames (defDecl f)
  hTypedef : Frames (typedef f)
  hTermexpr : Frames (termexpr f)
  hTermbody : Frames (termbody f)
  hTermcase : Frames (termcase f)
  hTermelse : Frames (termelse f)
  hTermfor : Frames (termfor f)
  hTuple : ∀ p, Frames (tuple f p)
  hTupleLoop : ∀ p a b items, Frames (tupleLoop f p a b items)
  hExpr : Frames (expr f)
  hBody : Frames (body f)
  hAssert : Frames (assert f)
  hUnary : Frames (unaryLevel f)
  hSuffix : Frames (suffix f)
  hSuffixLoop : ∀ a, Frames (suffixLoop f a)
  hMaybeAtom : Frames (maybeAtom f)
  hBinOp : ∀ lvl, Frames (binOp f lvl)
  hBinOpLoop : ∀ lvl a, Frames (binOpLoop f lvl a)
  hBinLevelNext : ∀ lvl, Frames (binLevelNext f lvl)

/-! ## Unfolding equations at successor fuel -/

theorem parserParse_succ (f : Nat) : parserParse (f + 1) = scope f noTok := rfl

theorem scope_succ (f : Nat) (p : Token → Option Unit) :
    scope (f + 1) p =
      pbind (scopeLoop f p ⟨0, 0, [], [], true, false⟩) fun acc => pok (scopeResult acc) := rfl

theorem scopeLoop_succ (f : Nat) (p : Token → Option Unit) (acc : ScopeAcc) :
    scopeLoop (f + 1) p acc =
      pbind peekT fun pk =>
        match pk with
        | none => pok acc
        | some _ =>
          pbind (hasPeek p) fun stop =>
            if stop then pok acc
            else
              pbind (scopeDispatch f p acc.defs acc.exprs) fun r =>
                let acc2 : ScopeAcc :=
                  { start := if acc.first then r.span.start else acc.start
                    stop := r.span.stop
                    defs := r.defs
                    exprs := r.exprs
                    first := false
                    discard := r.discard }
                if r.discard then scopeLoop f p acc2 else pok acc2 := rfl

theorem scopeDispatch_succ (f : Nat) (p : Token → Option Unit)
    (defs : List Def) (exprs : List Expr) :
    scopeDispatch (f + 1) p defs exprs =
      pbind (hasPeek isDefTok) fun d1 =>
        if d1 then
          pbind (defDecl f) fun d => pok ⟨d.span, true, defs ++ [d], exprs⟩
        else
          pbind (hasPeek isTypeTok) fun d2 =>
            if d2 then
              pbind (typedef f) fun d => pok ⟨d.span, true, defs ++ [d], exprs⟩
            else
              pbind (hasPeek isCaseTok) fun d3 =>
                if d3 then
                  pbind (termcase f) fun c => pok ⟨c.span, true, defs, exprs ++ [c]⟩
                else
                  pbind (hasPeek isForTok) fun d4 =>
                    if d4 then
                      pbind (termfor f) fun c => pok ⟨c.span, true, defs, exprs ++ [c]⟩
                    else
                      pbind (tuple f (mergepreds isSemiTok p)) fun e =>
                        pbind (eat (tokIf kSemicolon)) fun semi =>
                          pok ⟨⟨e.span.start,
                                match semi with
                                | some st => st.span.stop
                                | none => e.span.stop⟩,
                               semi.isSome, defs, exprs ++ [e]⟩ := rfl

theorem defDecl_succ (f : Nat) :
    defDecl (f + 1) =
      pbind (require (tokIf kDef)) fun kw =>
        pbind (require nameVal) fun n =>
          pbind (termexpr f) fun abs =>
            pok (Def.mk ⟨kw.span.start, abs.span.stop⟩ n abs) := rfl

theorem typedef_succ (f : Nat) :
    typedef (f + 1) =
      pbind (require (tokIf kType)) fun kw =>
        pbind (require nameVal) fun n =>
          pbind (termexpr f) fun v =>
            pok (Def.mk ⟨kw.span.start, v.span.stop⟩ n v) := rfl

theorem termexpr_succ (f : Nat) :
    termexpr (f + 1) =
      pbind (hasPeek isAbsStartTok) fun ab0 =>
        if ab0 then
          pbind (eat isThinArrowTok) fun ta =>
            pbind
              (match ta with
               | some _ => pbind (binOp f .logical) fun ty => pok (some ty)
               | none => pok none) fun ty =>
              pbind (eat isDollarTok) fun dl =>
                pbind (termbody f) fun bd =>
                  pok ⟨⟨bd.span.start, bd.span.stop⟩, .abstract none dl.isSome ty bd⟩
        else
          pbind (binOp f .logical) fun lg =>
            pbind (hasPeek isAbsStartTok) fun ab =>
              if ab then
                pbind (eat isThinArrowTok) fun ta =>
                  pbind
                    (match ta with
                     | some _ => pbind (binOp f .logical) fun ty => pok (some ty)
                     | none => pok none) fun ty =>
                    pbind (eat isDollarTok) fun dl =>
                      pbind (termbody f) fun bd =>
                        pok ⟨⟨lg.span.start, bd.span.stop⟩,
                             .abstract (some lg) dl.isSome ty bd⟩
              else
                pbind (require isSemiTok) fun _ => pok lg := rfl

theorem termbody_succ (f : Nat) :
    termbody (f + 1) =
      pbind (eat isFatArrowTok) fun fa =>
        match fa with
        | some _ => termexpr f
        | none =>
          pbind (require (tokIf kOpenBrace)) fun opn =>
            pbind (scope f isCloseBraceTok) fun sc =>
              pbind (require (tokIf kCloseBrace)) fun cls =>
                pok ⟨⟨opn.span.start, cls.span.stop⟩, sc.kind⟩ := rfl

theorem termcase_succ (f : Nat) :
    termcase (f + 1) =
      pbind (require (tokIf kCase)) fun ct =>
        pbind (binOp f .logical) fun cond =>
          pbind (termbody f) fun onT =>
            pbind (termelse f) fun onF =>
              pok ⟨⟨ct.span.start,
                    match onF with
                    | some fe => fe.span.stop
                    | none => onT.span.stop⟩,
                   .caseOf cond onT onF⟩ := rfl

theorem termelse_succ (f : Nat) :
    termelse (f + 1) =
      pbind (eat (tokIf kElse)) fun et =>
        match et with
        | none => pok none
        | some elseTok =>
          pbind (hasPeek isBodyStartTok) fun b =>
            if b then
              pbind (termbody f) fun bd => pok (some bd)
            else
              pbind (binOp f .logical) fun cond =>
                pbind (termbody f) fun onT =>
                  pbind (termelse f) fun onF =>
                    pok (some ⟨⟨elseTok.span.start,
                                match onF with
                                | some fe => fe.span.stop
                                | none => onT.span.stop⟩,
                               .caseOf cond onT onF⟩) := rfl

theorem termfor_succ (f : Nat) :
    termfor (f + 1) =
      pbind (require (tokIf kFor)) fun ft =>
        pbind (binOp f .logical) fun first =>
          pbind (eat isSemiTok) fun s1 =>
            pbind
              (match s1 with
               | some _ =>
                 pbind (binOp f .logical) fun second =>
                   pbind (eat isSemiTok) fun s2 =>
                     match s2 with
                     | some _ =>
                       pbind (binOp f .logical) fun third => pok (some second, some third)
                     | none => pok (some second, none)
               | none => pok (none, none)) fun sects =>
              pbind (termbody f) fun bd =>
                pok ⟨⟨ft.span.start, bd.span.stop⟩,
                     match sects with
                     | (some second, some third) => .forLoop (some first) second (some third) bd
                     | (some second, none) => .forLoop (some first) second none bd
                     | (none, _) => .forLoop none first none bd⟩ := rfl

theorem tuple_succ (f : Nat) (p : Token → Option Unit) :
    tuple (f + 1) p =
      pbind (hasPeek p) fun e1 =>
        pbind peekT fun pk =>
          if e1 || pk.isNone then
            pok ⟨⟨0, 0⟩, .tuple []⟩
          else
            pbind (expr f) fun first =>
              pbind (hasPeek p) fun e2 =>
                if e2 then pok first
                else tupleLoop f p first.span.start first.span.stop [first] := rfl

theorem tupleLoop_succ (f : Nat) (p : Token → Option Unit)
    (start stop : Nat) (items : List Expr) :
    tupleLoop (f + 1) p start stop items =
      pbind (eat (tokIf kComma)) fun c =>
        match c with
        | none => pok ⟨⟨start, stop⟩, .tuple items⟩
        | some ct =>
          pbind (hasPeek p) fun e3 =>
            if e3 then pok ⟨⟨start, ct.span.stop⟩, .tuple items⟩
            else
              pbind (expr f) fun x =>
                tupleLoop f p start ct.span.stop (items ++ [x]) := rfl

theorem expr_succ (f : Nat) :
    expr (f + 1) =
      pbind (binOp f .logical) fun lg =>
        pbind (hasPeek isAbsStartTok) fun ab =>
          if ab then
            pbind (eat isThinArrowTok) fun ta =>
              pbind
                (match ta with
                 | some _ => pbind (binOp f .logical) fun ty => pok (some ty)
                 | none => pok none) fun ty =>
                pbind (eat isDollarTok) fun dl =>
                  pbind (body f) fun bd =>
                    pok ⟨⟨lg.span.start, bd.span.stop⟩, .abstract (some lg) dl.isSome ty bd⟩
          else pok lg := rfl

theorem body_succ (f : Nat) :
    body (f + 1) =
      pbind (eat isFatArrowTok) fun fa =>
        match fa with
        | some _ => binOp f .logical
        | none =>
          pbind (require (tokIf kOpenBrace)) fun opn =>
            pbind (scope f isCloseBraceTok) fun sc =>
              pbind (require (tokIf kCloseBrace)) fun cls =>
                pok ⟨⟨opn.span.start, cls.span.stop⟩, sc.kind⟩ := rfl

theorem assert_succ (f : Nat) :
    assert (f + 1) =
      pbind (binOp f .arith) fun e =>
        pbind (eat (tokIf kColonColon)) fun c =>
          match c with
          | some tok =>
            pbind (binOp f .arith) fun ty =>
              pok ⟨⟨e.span.start, tok.span.stop⟩, .assert e ty⟩
          | none => pok e := rfl

theorem unaryLevel_succ (f : Nat) :
    unaryLevel (f + 1) =
      pbind (eat unaryOp) fun u =>
        match u with
        | some (opSpan, op) =>
          pbind (unaryLevel f) fun a =>
            pok ⟨⟨opSpan.start, a.span.stop⟩, .unary op a⟩
        | none =>
          pbind (eat solveMarkerVal) fun mk =>
            match mk with
            | some (mSpan, marker) =>
              pbind (require nameSpanVal) fun p =>
                pok ⟨⟨mSpan.start, p.fst.stop⟩, .solve marker p.snd⟩
            | none => suffix f := rfl

theorem suffix_succ (f : Nat) :
    suffix (f + 1) =
      pbind (maybeAtom f) fun ma =>
        match ma with
        | none =>
          pbind peekT fun pk =>
            pthrow (.parse { kind := .unexpected pk, span := none })
        | some a => suffixLoop f a := rfl

theorem suffixLoop_succ (f : Nat) (a : Expr) :
    suffixLoop (f + 1) a =
      pbind (maybeAtom f) fun ma =>
        match ma with
        | some arg => suffixLoop f ⟨⟨a.span.start, arg.span.stop⟩, .apply a arg⟩
        | none => pok a := rfl

theorem maybeAtom_succ (f : Nat) :
    maybeAtom (f + 1) =
      pbind (eat (tokIf kOpenParen)) fun op =>
        match op with
        | some opn =>
          pbind (scope f isCloseParenTok) fun sc =>
            pbind (require (tokIf kCloseParen)) fun cls =>
              pok (some ⟨⟨opn.span.start, cls.span.stop⟩, sc.kind⟩)
        | none =>
          pbind (hasPeek isBackslashTok) fun bs =>
            if bs then
              pbind (require backslashSpan) fun st =>
                pbind (require nameSpanVal) fun p =>
                  pok (some ⟨⟨st.start, p.fst.stop⟩, .literal (.variant p.snd)⟩)
            else
              pbind (eat atomLit) fun l =>
                match l with
                | some (sp, k) => pok (some ⟨sp, k⟩)
                | none => pok none := rfl

theorem binOp_succ (f : Nat) (lvl : BinLevel) :
    binOp (f + 1) lvl = pbind (binLevelNext f lvl) fun a => binOpLoop f lvl a := rfl

theorem binOpLoop_succ (f : Nat) (lvl : BinLevel) (a : Expr) :
    binOpLoop (f + 1) lvl a =
      pbind (eat (binLevelOp lvl)) fun o =>
        match o with
        | none => pok a
        | some op =>
          pbind (binLevelNext f lvl) fun b =>
            binOpLoop f lvl ⟨⟨a.span.start, a.span.stop⟩, .binary op a b⟩ := rfl

theorem binLevelNext_succ (f : Nat) (lvl : BinLevel) :
    binLevelNext (f + 1) lvl =
      match lvl with
      | .logical => binOp f .cmp
      | .cmp => assert f
      | .arith => binOp f .term
      | .term => unaryLevel f := rfl

/-! ## Small-step lemmas for the primitives -/

@[simp]
theorem Expr.exprSpanOfMk (sp : Span) (k : ExprKind) : (Expr.mk sp k).span = sp := rfl

@[simp]
theorem Expr.kindOfMk (sp : Span) (k : ExprKind) : (Expr.mk sp k).kind = k := rfl

@[simp]
theorem Def.defSpanOfMk (sp : Span) (n : String) (v : Expr) : (Def.mk sp n v).span = sp := rfl

theorem pbind_ok {α β : Type} {x : M α} {st : PState} {a : α} {st1 : PState}
    (h : x st = .ok (a, st1)) (k : α → M β) : pbind x k st = k a st1 := by
  simp [pbind, h]

theorem pbind_error {α β : Type} {x : M α} {st : PState} {er : PErr}
    (h : x st = .error er) (k : α → M β) : pbind x k st = .error er := by
  simp [pbind, h]

theorem peekT_cons (t : Token) (r : List Token) (le : Option TokenizationError)
    (es : ErrorStream) :
    peekT ⟨⟨t :: r, le⟩, es⟩ = .ok (some t, ⟨⟨t :: r, le⟩, es⟩) := rfl

theorem peekT_nil (es : ErrorStream) :
    peekT ⟨⟨[], none⟩, es⟩ = .ok (none, ⟨⟨[], none⟩, es⟩) := rfl

theorem peekT_lexErr (e : TokenizationError) (es : ErrorStream) :
    peekT ⟨⟨[], some e⟩, es⟩ = .error (.parse (ParseError.ofTokenization e)) := rfl

theorem hasPeek_cons (p : Token → Option Unit) (t : Token) (r : List Token)
    (le : Option TokenizationError) (es : ErrorStream) :
    hasPeek p ⟨⟨t :: r, le⟩, es⟩ = .ok ((p t).isSome, ⟨⟨t :: r, le⟩, es⟩) := by
  cases h : p t <;> simp [hasPeek, pbind, peekT, pok, h]

theorem hasPeek_nil (p : Token → Option Unit) (es : ErrorStream) :
    hasPeek p ⟨⟨[], none⟩, es⟩ = .ok (false, ⟨⟨[], none⟩, es⟩) := rfl

theorem eat_cons_none {α : Type} {p : Token → Option α} {t : Token} (r : List Token)
    (le : Option TokenizationError) (es : ErrorStream) (h : p t = none) :
    eat p ⟨⟨t :: r, le⟩, es⟩ = .ok (none, ⟨⟨t :: r, le⟩, es⟩) := by
  simp [eat, pbind, peekT, pok, h]

theorem eat_cons_some {α : Type} {p : Token → Option α} {t : Token} {v : α}
    (r : List Token) (le : Option TokenizationError) (es : ErrorStream)
    (h : p t = some v) :
    eat p ⟨⟨t :: r, le⟩, es⟩ = .ok (some v, ⟨⟨r, le⟩, es⟩) := by
  simp [eat, pbind, peekT, nextT, pok, h]

theorem eat_nil {α : Type} (p : Token → Option α) (es : ErrorStream) :
    eat p ⟨⟨[], none⟩, es⟩ = .ok (none, ⟨⟨[], none⟩, es⟩) := rfl

theorem require_cons_some {α : Type} {p : Token → Option α} {t : Token} {v : α}
    (r : List Token) (le : Option TokenizationError) (es : ErrorStream)
    (h : p t = some v) :
    require p ⟨⟨t :: r, le⟩, es⟩ = .ok (v, ⟨⟨r, le⟩, es⟩) := by
  simp [require, maybeRequire, pbind, peekT, nextT, pok, h]

theorem require_cons_none {α : Type} {p : Token → Option α} {t : Token}
    (r : List Token) (le : Option TokenizationError) (es : ErrorStream)
    (h : p t = none) :
    require p ⟨⟨t :: r, le⟩, es⟩ =
      .error (.parse { span := some t.span, kind := .unexpected (some t) }) := by
  simp [require, maybeRequire, pbind, peekT, pthrow, h]

theorem require_nil {α : Type} (p : Token → Option α) (es : ErrorStream) :
    require p ⟨⟨[], none⟩, es⟩ = .error (.parse { kind := .unexpected none, span := none }) := rfl

/-! ## The claims -/

/-- Claim C1, counterexample: for a single ordinary expression with no
terminator at end of input (the single token `a`), `parse` does not
return the bare expression — it returns a one-item `Tuple` wrapping it
(the end-of-input check after the first tuple element treats end of
input unlike a matching terminator). -/
theorem c1_counterexample :
    parse 20 (cleanTS [tok 0 1 (.name "a")]) esNil =
      .ok ⟨⟨0, 1⟩, .tuple [⟨⟨0, 1⟩, .name "a"⟩]⟩ ∧
    ¬ parse 20 (cleanTS [tok 0 1 (.name "a")]) esNil = .ok ⟨⟨0, 1⟩, .name "a"⟩ := by
  refine ⟨rfl, fun h => ?_⟩
  rw [show parse 20 (cleanTS [tok 0 1 (.name "a")]) esNil =
        .ok ⟨⟨0, 1⟩, .tuple [⟨⟨0, 1⟩, .name "a"⟩]⟩ from rfl] at h
  injection h with h1
  injection h1 with hsp hk
  exact ExprKind.noConfusion hk

/-- Claim C1 (amended): for one ordinary expression (any expression the
expression grammar accepts, not led by `def`/`type`/`case`/`for` or a
semicolon) followed by a semicolon, `parse` returns
`Scope{defs: [], exprs: [expr], discard: true}`; for empty input it
returns the empty `Tuple`; and for the same expression with no
terminator at end of input it returns the expression wrapped in a
one-item `Tuple` (no `Scope` wrapping), not the bare expression. -/
theorem c1_tail_discard (f : Nat) (t : Token) (E : List Token) (s : Token) (e : Expr)
    (es : ErrorStream)
    (hd : isDefTok t = none) (ht : isTypeTok t = none)
    (hc : isCaseTok t = none) (hf : isForTok t = none) (hs : isSemiTok t = none)
    (hskind : s.kind = .semicolon)
    (hexpr1 : expr f ⟨⟨t :: (E ++ [s]), none⟩, es⟩ = .ok (e, ⟨⟨[s], none⟩, es⟩))
    (hexpr2 : expr f ⟨⟨t :: E, none⟩, es⟩ = .ok (e, ⟨⟨[], none⟩, es⟩)) :
    parse (f + 5) ⟨t :: (E ++ [s]), none⟩ es =
      .ok ⟨⟨e.span.start, s.span.stop⟩, .scope [] [e] true⟩ ∧
    parse (f + 5) ⟨[], none⟩ es = .ok ⟨⟨0, 0⟩, .tuple []⟩ ∧
    parse (f + 5) ⟨t :: E, none⟩ es = .ok ⟨⟨e.span.start, e.span.stop⟩, .tuple [e]⟩ := by
  obtain ⟨g, rfl⟩ : ∃ g, f = g + 1 := by
    cases f with
    | zero => exact absurd hexpr2 (by simp [expr, pthrow])
    | succ g => exact ⟨g, rfl⟩
  have hsemi2 : tokIf kSemicolon s = some s := by simp [tokIf, kSemicolon, hskind]
  have hmp1 : mergepreds isSemiTok noTok t = none := by simp [mergepreds, hs, noTok]
  have hmp2 : mergepreds isSemiTok noTok s = some () := by
    simp [mergepreds, isSemiTok, hskind]
  refine ⟨?_, rfl, ?_⟩
  · have hp0 : hasPeek (mergepreds isSemiTok noTok) ⟨⟨t :: (E ++ [s]), none⟩, es⟩ =
        .ok (false, ⟨⟨t :: (E ++ [s]), none⟩, es⟩) := by
      rw [hasPeek_cons, hmp1]; rfl
    have hp1 : hasPeek (mergepreds isSemiTok noTok) ⟨⟨[s], none⟩, es⟩ =
        .ok (true, ⟨⟨[s], none⟩, es⟩) := by
      rw [hasPeek_cons, hmp2]; rfl
    have htup : tuple (g + 2) (mergepreds isSemiTok noTok) ⟨⟨t :: (E ++ [s]), none⟩, es⟩ =
        .ok (e, ⟨⟨[s], none⟩, es⟩) := by
      rw [show g + 2 = (g + 1) + 1 from rfl, tuple_succ]
      simp [pbind_ok hp0, pbind_ok (peekT_cons t (E ++ [s]) none es), pbind_ok hexpr1,
        pbind_ok hp1, pok]
    have hpD : hasPeek isDefTok ⟨⟨t :: (E ++ [s]), none⟩, es⟩ =
        .ok (false, ⟨⟨t :: (E ++ [s]), none⟩, es⟩) := by rw [hasPeek_cons, hd]; rfl
    have hpT : hasPeek isTypeTok ⟨⟨t :: (E ++ [s]), none⟩, es⟩ =
        .ok (false, ⟨⟨t :: (E ++ [s]), none⟩, es⟩) := by rw [hasPeek_cons, ht]; rfl
    have hpC : hasPeek isCaseTok ⟨⟨t :: (E ++ [s]), none⟩, es⟩ =
        .ok (false, ⟨⟨t :: (E ++ [s]), none⟩, es⟩) := by rw [hasPeek_cons, hc]; rfl
    have hpF : hasPeek isForTok ⟨⟨t :: (E ++ [s]), none⟩, es⟩ =
        .ok (false, ⟨⟨t :: (E ++ [s]), none⟩, es⟩) := by rw [hasPeek_cons, hf]; rfl
    have heat : eat (tokIf kSemicolon) ⟨⟨[s], none⟩, es⟩ =
        .ok (some s, ⟨⟨[], none⟩, es⟩) := eat_cons_some [] none es hsemi2
    have hdisp : scopeDispatch (g + 3) noTok [] [] ⟨⟨t :: (E ++ [s]), none⟩, es⟩ =
        .ok (⟨⟨e.span.start, s.span.stop⟩, true, [], [e]⟩, ⟨⟨[], none⟩, es⟩) := by
      rw [show g + 3 = (g + 2) + 1 from rfl, scopeDispatch_succ]
      simp [pbind_ok hpD, pbind_ok hpT, pbind_ok hpC, pbind_ok hpF, pbind_ok htup,
        pbind_ok heat, pok]
    have hloop2 : scopeLoop (g + 3) noTok
        ⟨e.span.start, s.span.stop, [], [e], false, true⟩ ⟨⟨[], none⟩, es⟩ =
        .ok (⟨e.span.start, s.span.stop, [], [e], false, true⟩, ⟨⟨[], none⟩, es⟩) := by
      rw [show g + 3 = (g + 2) + 1 from rfl, scopeLoop_succ]
      simp [pbind_ok (peekT_nil es), pok]
    have hpN : hasPeek noTok ⟨⟨t :: (E ++ [s]), none⟩, es⟩ =
        .ok (false, ⟨⟨t :: (E ++ [s]), none⟩, es⟩) := by rw [hasPeek_cons]; rfl
    have hloop : scopeLoop (g + 4) noTok ⟨0, 0, [], [], true, false⟩
        ⟨⟨t :: (E ++ [s]), none⟩, es⟩ =
        .ok (⟨e.span.start, s.span.stop, [], [e], false, true⟩, ⟨⟨[], none⟩, es⟩) := by
      rw [show g + 4 = (g + 3) + 1 from rfl, scopeLoop_succ]
      simp [pbind_ok (peekT_cons t (E ++ [s]) none es), pbind_ok hpN, pbind_ok hdisp,
        hloop2, pok]
    have hscope : scope (g + 5) noTok ⟨⟨t :: (E ++ [s]), none⟩, es⟩ =
        .ok (⟨⟨e.span.start, s.span.stop⟩, .scope [] [e] true⟩, ⟨⟨[], none⟩, es⟩) := by
      rw [show g + 5 = (g + 4) + 1 from rfl, scope_succ]
      simp [pbind_ok hloop, scopeResult, pok]
    simp [parse, parserParse_succ, hscope]
  · have hp0 : hasPeek (mergepreds isSemiTok noTok) ⟨⟨t :: E, none⟩, es⟩ =
        .ok (false, ⟨⟨t :: E, none⟩, es⟩) := by rw [hasPeek_cons, hmp1]; rfl
    have htupLoop : tupleLoop (g + 1) (mergepreds isSemiTok noTok)
        e.span.start e.span.stop [e] ⟨⟨[], none⟩, es⟩ =
        .ok (⟨⟨e.span.start, e.span.stop⟩, .tuple [e]⟩, ⟨⟨[], none⟩, es⟩) := by
      rw [show g + 1 = g + 1 from rfl, tupleLoop_succ]
      simp [pbind_ok (eat_nil (tokIf kComma) es), pok]
    have htup : tuple (g + 2) (mergepreds isSemiTok noTok) ⟨⟨t :: E, none⟩, es⟩ =
        .ok (⟨⟨e.span.start, e.span.stop⟩, .tuple [e]⟩, ⟨⟨[], none⟩, es⟩) := by
      rw [show g + 2 = (g + 1) + 1 from rfl, tuple_succ]
      simp [pbind_ok hp0, pbind_ok (peekT_cons t E none es), pbind_ok hexpr2,
        pbind_ok (hasPeek_nil (mergepreds isSemiTok noTok) es), htupLoop, pok]
    have hpD : hasPeek isDefTok ⟨⟨t :: E, none⟩, es⟩ =
        .ok (false, ⟨⟨t :: E, none⟩, es⟩) := by rw [hasPeek_cons, hd]; rfl
    have hpT : hasPeek isTypeTok ⟨⟨t :: E, none⟩, es⟩ =
        .ok (false, ⟨⟨t :: E, none⟩, es⟩) := by rw [hasPeek_cons, ht]; rfl
    have hpC : hasPeek isCaseTok ⟨⟨t :: E, none⟩, es⟩ =
        .ok (false, ⟨⟨t :: E, none⟩, es⟩) := by rw [hasPeek_cons, hc]; rfl
    have hpF : hasPeek isForTok ⟨⟨t :: E, none⟩, es⟩ =
        .ok (false, ⟨⟨t :: E, none⟩, es⟩) := by rw [hasPeek_cons, hf]; rfl
    have hdisp : scopeDispatch (g + 3) noTok [] [] ⟨⟨t :: E, none⟩, es⟩ =
        .ok (⟨⟨e.span.start, e.span.stop⟩, false, [],
              [⟨⟨e.span.start, e.span.stop⟩, .tuple [e]⟩]⟩, ⟨⟨[], none⟩, es⟩) := by
      rw [show g + 3 = (g + 2) + 1 from rfl, scopeDispatch_succ]
      simp [pbind_ok hpD, pbind_ok hpT, pbind_ok hpC, pbind_ok hpF, pbind_ok htup,
        pbind_ok (eat_nil (tokIf kSemicolon) es), pok]
    have hpN : hasPeek noTok ⟨⟨t :: E, none⟩, es⟩ =
        .ok (false, ⟨⟨t :: E, none⟩, es⟩) := by rw [hasPeek_cons]; rfl
    have hloop : scopeLoop (g + 4) noTok ⟨0, 0, [], [], true, false⟩ ⟨⟨t :: E, none⟩, es⟩ =
        .ok (⟨e.span.start, e.span.stop, [],
              [⟨⟨e.span.start, e.span.stop⟩, .tuple [e]⟩], false, false⟩,
             ⟨⟨[], none⟩, es⟩) := by
      rw [show g + 4 = (g + 3) + 1 from rfl, scopeLoop_succ]
      simp [pbind_ok (peekT_cons t E none es), pbind_ok hpN, pbind_ok hdisp, pok]
    have hscope : scope (g + 5) noTok ⟨⟨t :: E, none⟩, es⟩ =
        .ok (⟨⟨e.span.start, e.span.stop⟩, .tuple [e]⟩, ⟨⟨[], none⟩, es⟩) := by
      rw [show g + 5 = (g + 4) + 1 from rfl, scope_succ]
      simp [pbind_ok hloop, scopeResult, pok]
    simp [parse, parserParse_succ, hscope]

/-- Claim C1, witness: the three cases of `c1_tail_discard` at the
concrete expression `a` (name token at offsets 0-1) and semicolon at
offsets 1-2. -/
theorem c1_tail_discard_witness :
    parse 20 ⟨tok 0 1 (.name "a") :: ([] ++ [tok 1 2 .semicolon]), none⟩ esNil =
      .ok ⟨⟨0, 2⟩, .scope [] [⟨⟨0, 1⟩, .name "a"⟩] true⟩ ∧
    parse 20 ⟨[], none⟩ esNil = .ok ⟨⟨0, 0⟩, .tuple []⟩ ∧
    parse 20 ⟨tok 0 1 (.name "a") :: [], none⟩ esNil =
      .ok ⟨⟨0, 1⟩, .tuple [⟨⟨0, 1⟩, .name "a"⟩]⟩ :=
  c1_tail_discard 15 (tok 0 1 (.name "a")) [] (tok 1 2 .semicolon)
    ⟨⟨0, 1⟩, .name "a"⟩ esNil rfl rfl rfl rfl rfl rfl rfl rfl

/-- Claim C2, counterexample: the accepted input `(a,);` produces a tree
containing a `Tuple` node with exactly one item (a parenthesized single
expression with a trailing comma), so the parser does not enforce the
never-exactly-one arity invariant. -/
theorem c2_counterexample :
    parse 40 (cleanTS [tok 0 1 .openParen, tok 1 2 (.name "a"), tok 2 3 .comma,
        tok 3 4 .closeParen, tok 4 5 .semicolon]) esNil =
      .ok ⟨⟨0, 5⟩, .scope [] [⟨⟨0, 4⟩, .tuple [⟨⟨1, 2⟩, .name "a"⟩]⟩] true⟩ ∧
    (Expr.children ⟨⟨0, 4⟩, .tuple [⟨⟨1, 2⟩, .name "a"⟩]⟩).length = 1 := ⟨rfl, rfl⟩

/-- Claim C2 (amended): parsing a single expression with no trailing
comma inside parentheses yields that bare expression (with the
parentheses' span), never a one-item `Tuple`; parsing zero expressions
inside parentheses yields `Tuple{items: []}`; but the global arity
invariant fails: a parenthesized single expression with a trailing comma
yields a one-item `Tuple`. -/
theorem c2_tuple_arity (n : String) (s1 s2 s3 s4 : Span) (es : ErrorStream) :
    maybeAtom 30 ⟨⟨[⟨s1, .openParen⟩, ⟨s2, .name n⟩, ⟨s3, .closeParen⟩], none⟩, es⟩ =
      .ok (some ⟨⟨s1.start, s3.stop⟩, .name n⟩, ⟨⟨[], none⟩, es⟩) ∧
    maybeAtom 30 ⟨⟨[⟨s1, .openParen⟩, ⟨s2, .closeParen⟩], none⟩, es⟩ =
      .ok (some ⟨⟨s1.start, s2.stop⟩, .tuple []⟩, ⟨⟨[], none⟩, es⟩) ∧
    maybeAtom 30 ⟨⟨[⟨s1, .openParen⟩, ⟨s2, .name n⟩, ⟨s3, .comma⟩, ⟨s4, .closeParen⟩],
        none⟩, es⟩ =
      .ok (some ⟨⟨s1.start, s4.stop⟩, .tuple [⟨s2, .name n⟩]⟩, ⟨⟨[], none⟩, es⟩) :=
  ⟨rfl, rfl, rfl⟩

/-- Claim C3, counterexample: the claimed token sequence
`case c1 => t1 else case c2 => t2 else => t3` does not parse at all: the
arrow body of the first `case` goes through the statement-expression
rule, which requires a semicolon after `t1` and fails on `else`. -/
theorem c3_counterexample :
    parse 25 (cleanTS [tok 0 1 .kwCase, tok 1 2 (.name "c1"), tok 2 3 .fatArrow,
        tok 3 4 (.name "t1"), tok 4 5 .kwElse, tok 5 6 .kwCase, tok 6 7 (.name "c2"),
        tok 7 8 .fatArrow, tok 8 9 (.name "t2"), tok 9 10 .kwElse, tok 10 11 .fatArrow,
        tok 11 12 (.name "t3")]) esNil =
      .error (.parse ⟨.unexpected (some (tok 4 5 .kwElse)), some ⟨4, 5⟩⟩) := rfl

/-- Claim C3 (amended): the else-if continuation takes a bare condition
(no second `case` keyword), and `=>` bodies are statement expressions
that require a trailing semicolon; the input
`case c1 => t1; else c2 => t2; else => t3;` parses as the right-nested
chain `Case(c1, t1, Some(Case(c2, t2, Some(t3))))` (wrapped, as a
statement, in `Scope{defs: [], exprs: [chain], discard: true}`). -/
theorem c3_conditional_chaining (c1 t1 c2 t2 t3 : String) :
    parse 25 (cleanTS [tok 0 1 .kwCase, tok 1 2 (.name c1), tok 2 3 .fatArrow,
        tok 3 4 (.name t1), tok 4 5 .semicolon, tok 5 6 .kwElse, tok 6 7 (.name c2),
        tok 7 8 .fatArrow, tok 8 9 (.name t2), tok 9 10 .semicolon, tok 10 11 .kwElse,
        tok 11 12 .fatArrow, tok 12 13 (.name t3), tok 13 14 .semicolon]) esNil =
      .ok ⟨⟨0, 13⟩,
           .scope []
             [⟨⟨0, 13⟩,
               .caseOf ⟨⟨1, 2⟩, .name c1⟩ ⟨⟨3, 4⟩, .name t1⟩
                 (some ⟨⟨5, 13⟩,
                   .caseOf ⟨⟨6, 7⟩, .name c2⟩ ⟨⟨8, 9⟩, .name t2⟩
                     (some ⟨⟨12, 13⟩, .name t3⟩)⟩)⟩]
             true⟩ := rfl

/-- Claim C4: the code violates the span-coverage claim beyond the
binary-operator defect: on the accepted input `a :: b` the `Assert`
node's span ends at the `::` token (offset 4), while its `ty` child
spans offsets 5-6, so the parent does not cover the child even though
the node is not a `Binary` node. -/
theorem c4_assert_span_defect :
    parse 25 (cleanTS [tok 0 1 (.name "a"), tok 2 4 .colonColon, tok 5 6 (.name "b")])
        esNil =
      .ok ⟨⟨0, 4⟩, .tuple [c4AssertNode]⟩ ∧
    coversDirect c4AssertNode = false ∧
    (match c4AssertNode.kind with
     | .binary _ _ _ => False
     | _ => True) := ⟨rfl, rfl, trivial⟩

/-- Helper for claim C5: the `bin_op` fold preserves the left-spine span
law, and its result is either the untouched initial operand or a binary
node whose span equals its left operand's span. -/
theorem binOpLoop_leftSpine (f : Nat) (lvl : BinLevel) :
    ∀ (a : Expr) (st st2 : PState) (r : Expr),
      binOpLoop f lvl a st = .ok (r, st2) → leftSpineBinOk a = true →
      leftSpineBinOk r = true ∧
        (r = a ∨ ∃ op l rh, r.kind = .binary op l rh ∧ r.span = l.span) := by
  induction f with
  | zero => intro a st st2 r h ha; simp [binOpLoop, pthrow] at h
  | succ f ih =>
    intro a st st2 r h ha
    rw [binOpLoop_succ] at h
    simp only [pbind] at h
    cases heat : eat (binLevelOp lvl) st with
    | error e => rw [heat] at h; simp at h
    | ok p =>
      obtain ⟨o, st1⟩ := p
      rw [heat] at h
      cases o with
      | none =>
        simp [pok] at h
        obtain ⟨h1, h2⟩ := h
        subst h1
        exact ⟨ha, .inl rfl⟩
      | some op =>
        simp only [pbind] at h
        cases hnext : binLevelNext f lvl st1 with
        | error e => rw [hnext] at h; simp at h
        | ok q =>
          obtain ⟨b, st3⟩ := q
          rw [hnext] at h
          have hsp : (⟨a.span.start, a.span.stop⟩ : Span) = a.span := rfl
          have ha2 : leftSpineBinOk ⟨⟨a.span.start, a.span.stop⟩, .binary op a b⟩ = true := by
            simp [leftSpineBinOk, hsp, ha]
          obtain ⟨hspine, hdisj⟩ := ih _ st3 st2 r h ha2
          refine ⟨hspine, .inr ?_⟩
          cases hdisj with
          | inl heq => exact heq ▸ ⟨op, a, b, rfl, hsp⟩
          | inr hbin => exact hbin

/-- Claim C5: every node the left-associative binary-operator combinator
produces is either the operand parsed by the tighter level, unchanged,
or a `Binary` node whose span equals the left operand's span — the span
is never extended over the operator or right operand; moreover the whole
left spine of the result (all nodes this fold built) satisfies the same
span law. -/
theorem c5_binary_operator_span (f : Nat) (lvl : BinLevel) (st st1 st2 : PState)
    (a r : Expr)
    (hnext : binLevelNext f lvl st = .ok (a, st1))
    (ha : leftSpineBinOk a = true)
    (hok : binOp (f + 1) lvl st = .ok (r, st2)) :
    leftSpineBinOk r = true ∧
      (r = a ∨ ∃ op l rh, r.kind = .binary op l rh ∧ r.span = l.span) := by
  rw [binOp_succ] at hok
  rw [pbind_ok hnext] at hok
  exact binOpLoop_leftSpine f lvl a st1 st2 r hok ha

/-- Claim C5, witness: the two-operand input `a + b` (spans 0-1, 2-3,
4-5) at the additive level. -/
theorem c5_binary_operator_span_witness :
    leftSpineBinOk ⟨⟨0, 1⟩, .binary .add ⟨⟨0, 1⟩, .name "a"⟩ ⟨⟨4, 5⟩, .name "b"⟩⟩ = true ∧
      (Expr.mk ⟨0, 1⟩ (.binary .add ⟨⟨0, 1⟩, .name "a"⟩ ⟨⟨4, 5⟩, .name "b"⟩) =
          ⟨⟨0, 1⟩, .name "a"⟩ ∨
        ∃ op l rh,
          (Expr.mk ⟨0, 1⟩ (.binary .add ⟨⟨0, 1⟩, .name "a"⟩ ⟨⟨4, 5⟩, .name "b"⟩)).kind =
              .binary op l rh ∧
            (Expr.mk ⟨0, 1⟩ (.binary .add ⟨⟨0, 1⟩, .name "a"⟩ ⟨⟨4, 5⟩, .name "b"⟩)).span =
              l.span) :=
  c5_binary_operator_span 18 .arith
    ⟨⟨[tok 0 1 (.name "a"), tok 2 3 .plus, tok 4 5 (.name "b")], none⟩, esNil⟩
    ⟨⟨[tok 2 3 .plus, tok 4 5 (.name "b")], none⟩, esNil⟩
    ⟨⟨[], none⟩, esNil⟩
    ⟨⟨0, 1⟩, .name "a"⟩
    ⟨⟨0, 1⟩, .binary .add ⟨⟨0, 1⟩, .name "a"⟩ ⟨⟨4, 5⟩, .name "b"⟩⟩
    rfl rfl rfl

/-- Claim C6: the suffix/application parser folds juxtaposition to the
left: `f a b` parses as `Apply(Apply(f, a), b)` and `f a b c` as
`Apply(Apply(Apply(f, a), b), c)`, for arbitrary names and token
spans. -/
theorem c6_application_associativity (nf na nb nc : String) (s1 s2 s3 s4 : Span)
    (es : ErrorStream) :
    suffix 20 ⟨⟨[⟨s1, .name nf⟩, ⟨s2, .name na⟩, ⟨s3, .name nb⟩], none⟩, es⟩ =
      .ok (⟨⟨s1.start, s3.stop⟩,
            .apply ⟨⟨s1.start, s2.stop⟩, .apply ⟨s1, .name nf⟩ ⟨s2, .name na⟩⟩
              ⟨s3, .name nb⟩⟩,
           ⟨⟨[], none⟩, es⟩) ∧
    suffix 20 ⟨⟨[⟨s1, .name nf⟩, ⟨s2, .name na⟩, ⟨s3, .name nb⟩, ⟨s4, .name nc⟩],
        none⟩, es⟩ =
      .ok (⟨⟨s1.start, s4.stop⟩,
            .apply
              ⟨⟨s1.start, s3.stop⟩,
                .apply ⟨⟨s1.start, s2.stop⟩, .apply ⟨s1, .name nf⟩ ⟨s2, .name na⟩⟩
                  ⟨s3, .name nb⟩⟩
              ⟨s4, .name nc⟩⟩,
           ⟨⟨[], none⟩, es⟩) := ⟨rfl, rfl⟩

/-- Claim C7: when the tokens after an opening `{` form a scope that
consumes the whole rest of the input (so no matching `}` remains), the
body rule fails with kind `Unexpected(None)` and no span, and the whole
parse of such a program (here `x { a`) returns that error and no
tree. -/
theorem c7_unterminated_brace (f : Nat) (opn : Token) (rest : List Token) (e : Expr)
    (es es2 : ErrorStream)
    (hop : opn.kind = .openBrace)
    (hscope : scope f isCloseBraceTok ⟨⟨rest, none⟩, es⟩ = .ok (e, ⟨⟨[], none⟩, es2⟩)) :
    termbody (f + 1) ⟨⟨opn :: rest, none⟩, es⟩ =
      .error (.parse ⟨.unexpected none, none⟩) ∧
    parse 30 (cleanTS [tok 0 1 (.name "x"), tok 2 3 .openBrace, tok 4 5 (.name "a")])
        esNil =
      .error (.parse ⟨.unexpected none, none⟩) := by
  refine ⟨?_, rfl⟩
  have hfa : isFatArrowTok opn = none := by simp [isFatArrowTok, hop]
  have hob : tokIf kOpenBrace opn = some opn := by simp [tokIf, kOpenBrace, hop]
  rw [termbody_succ]
  simp [pbind_ok (eat_cons_none rest none es hfa),
    pbind_ok (require_cons_some rest none es hob), pbind_ok hscope,
    pbind_error (require_nil (tokIf kCloseBrace) es2)]

/-- Claim C7, witness: `c7_unterminated_brace` at the concrete rest `a`
(one name token), whose scope consumes everything and yields a one-item
tuple. -/
theorem c7_unterminated_brace_witness :
    termbody 31 ⟨⟨tok 2 3 .openBrace :: [tok 4 5 (.name "a")], none⟩, esNil⟩ =
      .error (.parse ⟨.unexpected none, none⟩) ∧
    parse 30 (cleanTS [tok 0 1 (.name "x"), tok 2 3 .openBrace, tok 4 5 (.name "a")])
        esNil =
      .error (.parse ⟨.unexpected none, none⟩) :=
  c7_unterminated_brace 30 (tok 2 3 .openBrace) [tok 4 5 (.name "a")]
    ⟨⟨4, 5⟩, .tuple [⟨⟨4, 5⟩, .name "a"⟩]⟩ esNil esNil rfl rfl

/-- Claim C8: the three surface forms of `for` (no semicolon, two
semicolons, one semicolon) produce the same `For` node shape with unused
clauses as `None`: `for c => b;` gives no init/afterthought,
`for i; c; s2 => b;` populates all three clauses, and `for i; c => b;`
leaves the afterthought `None`. -/
theorem c8_for_clause_arity (ni nc ns nb : String) (s1 s2 s3 s4 s5 s6 s7 s8 s9 : Span)
    (es : ErrorStream) :
    termfor 50 ⟨⟨[⟨s1, .kwFor⟩, ⟨s2, .name nc⟩, ⟨s3, .fatArrow⟩, ⟨s4, .name nb⟩,
        ⟨s5, .semicolon⟩], none⟩, es⟩ =
      .ok (⟨⟨s1.start, s4.stop⟩, .forLoop none ⟨s2, .name nc⟩ none ⟨s4, .name nb⟩⟩,
           ⟨⟨[], none⟩, es⟩) ∧
    termfor 50 ⟨⟨[⟨s1, .kwFor⟩, ⟨s2, .name ni⟩, ⟨s3, .semicolon⟩, ⟨s4, .name nc⟩,
        ⟨s5, .semicolon⟩, ⟨s6, .name ns⟩, ⟨s7, .fatArrow⟩, ⟨s8, .name nb⟩,
        ⟨s9, .semicolon⟩], none⟩, es⟩ =
      .ok (⟨⟨s1.start, s8.stop⟩,
            .forLoop (some ⟨s2, .name ni⟩) ⟨s4, .name nc⟩ (some ⟨s6, .name ns⟩)
              ⟨s8, .name nb⟩⟩,
           ⟨⟨[], none⟩, es⟩) ∧
    termfor 50 ⟨⟨[⟨s1, .kwFor⟩, ⟨s2, .name ni⟩, ⟨s3, .semicolon⟩, ⟨s4, .name nc⟩,
        ⟨s5, .fatArrow⟩, ⟨s6, .name nb⟩, ⟨s7, .semicolon⟩], none⟩, es⟩ =
      .ok (⟨⟨s1.start, s6.stop⟩,
            .forLoop (some ⟨s2, .name ni⟩) ⟨s4, .name nc⟩ none ⟨s6, .name nb⟩⟩,
           ⟨⟨[], none⟩, es⟩) := ⟨rfl, rfl, rfl⟩

/-- Claim C9, counterexample: on a token-stream state whose next pull is
a lexical failure, both `eat` and `has_peek` return an error (the
wrapped tokenization error), so the claim does not hold for every state
of the token stream. -/
theorem c9_counterexample :
    eat isSemiTok ⟨⟨[], some ⟨some ⟨7, 8⟩⟩⟩, esNil⟩ =
      .error (.parse ⟨.tokenizationError ⟨some ⟨7, 8⟩⟩, some ⟨7, 8⟩⟩) ∧
    hasPeek isSemiTok ⟨⟨[], some ⟨some ⟨7, 8⟩⟩⟩, esNil⟩ =
      .error (.parse ⟨.tokenizationError ⟨some ⟨7, 8⟩⟩, some ⟨7, 8⟩⟩) := ⟨rfl, rfl⟩

/-- Claim C9 (amended): on every token-stream state whose next pull is
not a lexical failure, `eat` and `has_peek` never return an error: when
the next token fails the predicate (or the stream is exhausted) `eat`
leaves the state unchanged and returns nothing, on a match it consumes
exactly that token, and `has_peek` returns `false` at end of input. -/
theorem c9_lookahead_no_error (α : Type) (p : Token → Option α)
    (q : Token → Option Unit) (toks r : List Token) (t u : Token) (v : α)
    (es : ErrorStream) (hfail : p t = none) (hmatch : p u = some v) :
    isOkB (eat p ⟨⟨toks, none⟩, es⟩) = true ∧
    isOkB (hasPeek q ⟨⟨toks, none⟩, es⟩) = true ∧
    eat p ⟨⟨t :: r, none⟩, es⟩ = .ok (none, ⟨⟨t :: r, none⟩, es⟩) ∧
    eat p ⟨⟨u :: r, none⟩, es⟩ = .ok (some v, ⟨⟨r, none⟩, es⟩) ∧
    eat p ⟨⟨[], none⟩, es⟩ = .ok (none, ⟨⟨[], none⟩, es⟩) ∧
    hasPeek q ⟨⟨[], none⟩, es⟩ = .ok (false, ⟨⟨[], none⟩, es⟩) := by
  refine ⟨?_, ?_, eat_cons_none r none es hfail, eat_cons_some r none es hmatch,
    eat_nil p es, hasPeek_nil q es⟩
  · cases toks with
    | nil => rfl
    | cons hd tl =>
      cases hp : p hd with
      | none => rw [eat_cons_none tl none es hp]; rfl
      | some w => rw [eat_cons_some tl none es hp]; rfl
  · cases toks with
    | nil => rfl
    | cons hd tl => rw [hasPeek_cons]; rfl

/-- Claim C9, witness: `c9_lookahead_no_error` at the semicolon
predicate, a name token (predicate fails) and a semicolon token
(predicate matches), on the stream holding that single name token. -/
theorem c9_lookahead_no_error_witness :
    isOkB (eat isSemiTok ⟨⟨[tok 0 1 (.name "a")], none⟩, esNil⟩) = true ∧
    isOkB (hasPeek isSemiTok ⟨⟨[tok 0 1 (.name "a")], none⟩, esNil⟩) = true ∧
    eat isSemiTok ⟨⟨tok 0 1 (.name "a") :: [], none⟩, esNil⟩ =
      .ok (none, ⟨⟨tok 0 1 (.name "a") :: [], none⟩, esNil⟩) ∧
    eat isSemiTok ⟨⟨tok 3 4 .semicolon :: [], none⟩, esNil⟩ =
      .ok (some (), ⟨⟨[], none⟩, esNil⟩) ∧
    eat isSemiTok ⟨⟨[], none⟩, esNil⟩ = .ok (none, ⟨⟨[], none⟩, esNil⟩) ∧
    hasPeek isSemiTok ⟨⟨[], none⟩, esNil⟩ = .ok (false, ⟨⟨[], none⟩, esNil⟩) :=
  c9_lookahead_no_error Unit isSemiTok isSemiTok [tok 0 1 (.name "a")] []
    (tok 0 1 (.name "a")) (tok 3 4 .semicolon) () esNil rfl rfl

/-! ## The frame property of the diagnostic sink (claim C10) -/

theorem Frames_pok {α : Type} (a : α) : Frames (pok a) := fun _ _ _ => rfl

theorem Frames_pthrow {α : Type} (e : PErr) : Frames (pthrow (α := α) e) :=
  fun _ _ _ => rfl

theorem Frames_peekT : Frames peekT := by
  intro ts es es2
  obtain ⟨toks, le⟩ := ts
  cases toks <;> cases le <;> rfl

theorem Frames_nextT : Frames nextT := by
  intro ts es es2
  obtain ⟨toks, le⟩ := ts
  cases toks <;> cases le <;> rfl

theorem Frames_pbind {α β : Type} {x : M α} {k : α → M β}
    (hx : Frames x) (hk : ∀ a, Frames (k a)) : Frames (pbind x k) := by
  intro ts es es2
  simp only [pbind]
  have h := hx ts es es2
  cases h2 : x ⟨ts, es2⟩ with
  | error e =>
    rw [h2] at h
    simp only [remapES] at h
    rw [h]
    rfl
  | ok q =>
    obtain ⟨a, st⟩ := q
    rw [h2] at h
    simp only [remapES] at h
    rw [h]
    exact hk a st.tokens es st.errors

theorem Frames_ite {α : Type} {c : Prop} [Decidable c] {m1 m2 : M α}
    (h1 : Frames m1) (h2 : Frames m2) : Frames (if c then m1 else m2) := by
  by_cases hc : c
  · rw [if_pos hc]; exact h1
  · rw [if_neg hc]; exact h2

theorem Frames_hasPeek (p : Token → Option Unit) : Frames (hasPeek p) :=
  Frames_pbind Frames_peekT fun tk => by
    cases tk with
    | none => exact Frames_pok _
    | some t =>
      dsimp only
      cases hp : p t with
      | none => exact Frames_pok _
      | some v => exact Frames_pok _

theorem Frames_eat {α : Type} (p : Token → Option α) : Frames (eat p) :=
  Frames_pbind Frames_peekT fun tk => by
    cases tk with
    | none => exact Frames_pok _
    | some t =>
      dsimp only
      cases hp : p t with
      | none => exact Frames_pok _
      | some v => exact Frames_pbind Frames_nextT fun _ => Frames_pok _

theorem Frames_maybeRequire {α : Type} (p : Token → Option α) :
    Frames (maybeRequire p) :=
  Frames_pbind Frames_peekT fun tk => by
    cases tk with
    | none => exact Frames_pok _
    | some t =>
      dsimp only
      cases hp : p t with
      | none => exact Frames_pthrow _
      | some v => exact Frames_pbind Frames_nextT fun _ => Frames_pok _

theorem Frames_require {α : Type} (p : Token → Option α) : Frames (require p) := by
  intro ts es es2
  have h := Frames_maybeRequire p ts es es2
  simp only [require]
  cases h2 : maybeRequire p ⟨ts, es2⟩ with
  | error e =>
    rw [h2] at h
    simp only [remapES] at h
    rw [h]
    rfl
  | ok q =>
    obtain ⟨o, st⟩ := q
    rw [h2] at h
    simp only [remapES] at h
    rw [h]
    cases o <;> rfl

/-- Every parser function, at every fuel, threads the diagnostic sink
through unchanged and behaves independently of it (by induction on the
fuel; every call inside a body at fuel `f + 1` runs at fuel `f`). -/
theorem allFrames : ∀ f, AllFrames f := by
  intro f
  induction f with
  | zero => constructor <;> intros <;> exact Frames_pthrow _
  | succ f ih =>
    refine
      { hParse := ?_, hScope := ?_, hScopeLoop := ?_, hScopeDispatch := ?_,
        hDefDecl := ?_, hTypedef := ?_, hTermexpr := ?_, hTermbody := ?_,
        hTermcase := ?_, hTermelse := ?_, hTermfor := ?_, hTuple := ?_,
        hTupleLoop := ?_, hExpr := ?_, hBody := ?_, hAssert := ?_, hUnary := ?_,
        hSuffix := ?_, hSuffixLoop := ?_, hMaybeAtom := ?_, hBinOp := ?_,
        hBinOpLoop := ?_, hBinLevelNext := ?_ }
    · rw [parserParse_succ]
      exact ih.hScope noTok
    · intro p
      rw [scope_succ]
      exact Frames_pbind (ih.hScopeLoop p _) fun acc => Frames_pok _
    · intro p acc
      rw [scopeLoop_succ]
      refine Frames_pbind Frames_peekT fun pk => ?_
      cases pk with
      | none => exact Frames_pok _
      | some tkn =>
        refine Frames_pbind (Frames_hasPeek p) fun stop => Frames_ite (Frames_pok _) ?_
        refine Frames_pbind (ih.hScopeDispatch p acc.defs acc.exprs) fun r => ?_
        exact Frames_ite (ih.hScopeLoop p _) (Frames_pok _)
    · intro p ds exs
      rw [scopeDispatch_succ]
      refine Frames_pbind (Frames_hasPeek _) fun d1 =>
        Frames_ite (Frames_pbind ih.hDefDecl fun d => Frames_pok _) ?_
      refine Frames_pbind (Frames_hasPeek _) fun d2 =>
        Frames_ite (Frames_pbind ih.hTypedef fun d => Frames_pok _) ?_
      refine Frames_pbind (Frames_hasPeek _) fun d3 =>
        Frames_ite (Frames_pbind ih.hTermcase fun c => Frames_pok _) ?_
      refine Frames_pbind (Frames_hasPeek _) fun d4 =>
        Frames_ite (Frames_pbind ih.hTermfor fun c => Frames_pok _) ?_
      exact Frames_pbind (ih.hTuple _) fun e =>
        Frames_pbind (Frames_eat _) fun semi => Frames_pok _
    · rw [defDecl_succ]
      exact Frames_pbind (Frames_require _) fun kw =>
        Frames_pbind (Frames_require _) fun n =>
          Frames_pbind ih.hTermexpr fun abs => Frames_pok _
    · rw [typedef_succ]
      exact Frames_pbind (Frames_require _) fun kw =>
        Frames_pbind (Frames_require _) fun n =>
          Frames_pbind ih.hTermexpr fun v => Frames_pok _
    · rw [termexpr_succ]
      refine Frames_pbind (Frames_hasPeek _) fun ab0 => Frames_ite ?_ ?_
      · refine Frames_pbind (Frames_eat _) fun ta => Frames_pbind ?_ fun ty =>
          Frames_pbind (Frames_eat _) fun dl =>
            Frames_pbind ih.hTermbody fun bd => Frames_pok _
        cases ta with
        | none => exact Frames_pok _
        | some u => exact Frames_pbind (ih.hBinOp .logical) fun ty => Frames_pok _
      · refine Frames_pbind (ih.hBinOp .logical) fun lg =>
          Frames_pbind (Frames_hasPeek _) fun ab => Frames_ite ?_ ?_
        · refine Frames_pbind (Frames_eat _) fun ta => Frames_pbind ?_ fun ty =>
            Frames_pbind (Frames_eat _) fun dl =>
              Frames_pbind ih.hTermbody fun bd => Frames_pok _
          cases ta with
          | none => exact Frames_pok _
          | some u => exact Frames_pbind (ih.hBinOp .logical) fun ty => Frames_pok _
        · exact Frames_pbind (Frames_require _) fun u => Frames_pok _
    · rw [termbody_succ]
      refine Frames_pbind (Frames_eat _) fun fa => ?_
      cases fa with
      | some u => exact ih.hTermexpr
      | none =>
        exact Frames_pbind (Frames_require _) fun opn =>
          Frames_pbind (ih.hScope _) fun sc =>
            Frames_pbind (Frames_require _) fun cls => Frames_pok _
    · rw [termcase_succ]
      exact Frames_pbind (Frames_require _) fun ct =>
        Frames_pbind (ih.hBinOp .logical) fun cond =>
          Frames_pbind ih.hTermbody fun onT =>
            Frames_pbind ih.hTermelse fun onF => Frames_pok _
    · rw [termelse_succ]
      refine Frames_pbind (Frames_eat _) fun et => ?_
      cases et with
      | none => exact Frames_pok _
      | some elseTok =>
        refine Frames_pbind (Frames_hasPeek _) fun b =>
          Frames_ite (Frames_pbind ih.hTermbody fun bd => Frames_pok _) ?_
        exact Frames_pbind (ih.hBinOp .logical) fun cond =>
          Frames_pbind ih.hTermbody fun onT =>
            Frames_pbind ih.hTermelse fun onF => Frames_pok _
    · rw [termfor_succ]
      refine Frames_pbind (Frames_require _) fun ft =>
        Frames_pbind (ih.hBinOp .logical) fun first =>
          Frames_pbind (Frames_eat _) fun s1 => Frames_pbind ?_ fun sects =>
            Frames_pbind ih.hTermbody fun bd => Frames_pok _
      cases s1 with
      | none => exact Frames_pok _
      | some u =>
        refine Frames_pbind (ih.hBinOp .logical) fun second =>
          Frames_pbind (Frames_eat _) fun s2 => ?_
        cases s2 with
        | none => exact Frames_pok _
        | some u2 => exact Frames_pbind (ih.hBinOp .logical) fun third => Frames_pok _
    · intro p
      rw [tuple_succ]
      refine Frames_pbind (Frames_hasPeek _) fun e1 =>
        Frames_pbind Frames_peekT fun pk => Frames_ite (Frames_pok _) ?_
      exact Frames_pbind ih.hExpr fun first =>
        Frames_pbind (Frames_hasPeek _) fun e2 =>
          Frames_ite (Frames_pok _) (ih.hTupleLoop p _ _ _)
    · intro p a b items
      rw [tupleLoop_succ]
      refine Frames_pbind (Frames_eat _) fun c => ?_
      cases c with
      | none => exact Frames_pok _
      | some ct =>
        refine Frames_pbind (Frames_hasPeek _) fun e3 => Frames_ite (Frames_pok _) ?_
        exact Frames_pbind ih.hExpr fun x => ih.hTupleLoop p _ _ _
    · rw [expr_succ]
      refine Frames_pbind (ih.hBinOp .logical) fun lg =>
        Frames_pbind (Frames_hasPeek _) fun ab => Frames_ite ?_ (Frames_pok _)
      refine Frames_pbind (Frames_eat _) fun ta => Frames_pbind ?_ fun ty =>
        Frames_pbind (Frames_eat _) fun dl =>
          Frames_pbind ih.hBody fun bd => Frames_pok _
      cases ta with
      | none => exact Frames_pok _
      | some u => exact Frames_pbind (ih.hBinOp .logical) fun ty => Frames_pok _
    · rw [body_succ]
      refine Frames_pbind (Frames_eat _) fun fa => ?_
      cases fa with
      | some u => exact ih.hBinOp .logical
      | none =>
        exact Frames_pbind (Frames_require _) fun opn =>
          Frames_pbind (ih.hScope _) fun sc =>
            Frames_pbind (Frames_require _) fun cls => Frames_pok _
    · rw [assert_succ]
      refine Frames_pbind (ih.hBinOp .arith) fun e => ?_
      refine Frames_pbind (Frames_eat _) fun c => ?_
      cases c with
      | some tokc => exact Frames_pbind (ih.hBinOp .arith) fun ty => Frames_pok _
      | none => exact Frames_pok _
    · rw [unaryLevel_succ]
      refine Frames_pbind (Frames_eat _) fun u => ?_
      cases u with
      | some q =>
        obtain ⟨opSpan, op⟩ := q
        exact Frames_pbind ih.hUnary fun a => Frames_pok _
      | none =>
        refine Frames_pbind (Frames_eat _) fun mk => ?_
        cases mk with
        | some q =>
          obtain ⟨mSpan, marker⟩ := q
          exact Frames_pbind (Frames_require _) fun nm => Frames_pok _
        | none => exact ih.hSuffix
    · rw [suffix_succ]
      refine Frames_pbind ih.hMaybeAtom fun ma => ?_
      cases ma with
      | none => exact Frames_pbind Frames_peekT fun pk => Frames_pthrow _
      | some a => exact ih.hSuffixLoop a
    · intro a
      rw [suffixLoop_succ]
      refine Frames_pbind ih.hMaybeAtom fun ma => ?_
      cases ma with
      | some arg => exact ih.hSuffixLoop _
      | none => exact Frames_pok _
    · rw [maybeAtom_succ]
      refine Frames_pbind (Frames_eat _) fun op => ?_
      cases op with
      | some opn =>
        exact Frames_pbind (ih.hScope _) fun sc =>
          Frames_pbind (Frames_require _) fun cls => Frames_pok _
      | none =>
        refine Frames_pbind (Frames_hasPeek _) fun bs => Frames_ite ?_ ?_
        · exact Frames_pbind (Frames_require _) fun st =>
            Frames_pbind (Frames_require _) fun q => Frames_pok _
        · refine Frames_pbind (Frames_eat _) fun l => ?_
          cases l with
          | some q =>
            obtain ⟨sp, k⟩ := q
            exact Frames_pok _
          | none => exact Frames_pok _
    · intro lvl
      rw [binOp_succ]
      exact Frames_pbind (ih.hBinLevelNext lvl) fun a => ih.hBinOpLoop lvl a
    · intro lvl a
      rw [binOpLoop_succ]
      refine Frames_pbind (Frames_eat _) fun o => ?_
      cases o with
      | none => exact Frames_pok _
      | some op =>
        exact Frames_pbind (ih.hBinLevelNext lvl) fun b => ih.hBinOpLoop lvl _
    · intro lvl
      rw [binLevelNext_succ]
      cases lvl with
      | logical => exact ih.hBinOp .cmp
      | cmp => exact ih.hAssert
      | arith => exact ih.hBinOp .term
      | term => exact ih.hUnary

/-- Claim C10: the public entry point never touches the diagnostic sink
it is given — running the parser leaves the sink component of the state
exactly as supplied (and errors carry no sink at all), and the result of
`parse` is determined solely by the token stream: two runs on the same
tokens with different sinks return the same tree or error. -/
theorem c10_sink_unused (f : Nat) (ts : TokStream) (es es2 : ErrorStream) :
    parserParse f ⟨ts, es⟩ = remapES es (parserParse f ⟨ts, es2⟩) ∧
    parse f ts es = parse f ts es2 := by
  have h := (allFrames f).hParse ts es es2
  refine ⟨h, ?_⟩
  simp only [parse]
  rw [h]
  cases h2 : parserParse f ⟨ts, es2⟩ with
  | error e => rfl
  | ok q => obtain ⟨e, st⟩ := q; rfl

end Radio
